import Mathlib

/-!
# CHIP-8 interpreter (`src/main.cpp`): shallow embedding and verified properties

The interpreter keeps its whole machine state in local variables of `main`.
They are gathered here in the structure `Chip8`; every C array is a function
from indices to cell values, and every array access whose index can leave the
array is guarded by an explicit bounds check, so that an access outside the
array (undefined behaviour in C++) makes the embedded operation return `none`.
A register index taken from an instruction nibble is always below 16 and needs
no check.

Machine integers are natural numbers; a conversion to `uint8_t` or `uint16_t`
that can lose bits is written as an explicit `% 256` or `% 65536`. The key
latch `keys` and the number `rnd` drawn by the random generator are inputs of
the instruction switch.

Besides the CPU step (`fetch`, `execute`, `cycle`) the file embeds `setPixel`,
the timer update and its scheduling over the time points of the outer loop
(`timerUpdate`, `timerSchedule`) and the initialisation of memory from the ROM
and the font table (`initialState`).
-/

namespace Chip8Emu

/-! ## Data model -/

/-- Width of the pixel plane (`CHIP8_WIDTH`). -/
def CHIP8_WIDTH : Int := 64

/-- Height of the pixel plane (`CHIP8_HEIGHT`). -/
def CHIP8_HEIGHT : Int := 32

/-- Number of bytes of `memory`. -/
def MEM_SIZE : Nat := 4096

/-- Number of cells of `display` (`CHIP8_WIDTH * CHIP8_HEIGHT`). -/
def DISPLAY_SIZE : Nat := 2048

/-- The local variables of `main` that make up the machine state. -/
structure Chip8 where
  /-- Contents of `unsigned char memory[4096]`. -/
  memory : Nat → Nat
  /-- Contents of `uint8_t display[64 * 32]`, row-major. -/
  display : Nat → Nat
  /-- Contents of `uint8_t V[16]`. -/
  V : Nat → Nat
  /-- Index register, `uint16_t`. -/
  I : Nat
  /-- Program counter, `uint16_t`. -/
  PC : Nat
  /-- Contents of `unsigned short stack[16]`. -/
  stack : Nat → Nat
  /-- Stack pointer, `unsigned short`; points to the next free slot. -/
  sp : Nat
  /-- Delay timer, `uint8_t`. -/
  DT : Nat
  /-- Sound timer, `uint8_t`. -/
  ST : Nat

/-- Array store `a[i] = v`. -/
def store (a : Nat → Nat) (i v : Nat) : Nat → Nat :=
  fun j => if j = i then v else a j

/-- Every variable holds a value of its C type. -/
def Chip8.WellTyped (s : Chip8) : Prop :=
  (∀ i, s.memory i < 256) ∧ (∀ i, s.display i < 256) ∧ (∀ i, s.V i < 256) ∧
  s.I < 65536 ∧ s.PC < 65536 ∧ (∀ i, s.stack i < 65536) ∧ s.sp < 65536 ∧
  s.DT < 256 ∧ s.ST < 256

/-- Every cell of the pixel plane is 0 or 1. -/
def Chip8.BinaryDisplay (s : Chip8) : Prop :=
  ∀ i, i < DISPLAY_SIZE → s.display i ≤ 1

/-- Runs `for (i = 0; i < n; i++) body(i)` on the loop state `init`; the loop
stops with `none` as soon as one iteration does. -/
def forLoop {σ : Type} (body : Nat → σ → Option σ) (init : σ) : Nat → Option σ
  | 0 => some init
  | n + 1 => (forLoop body init n).bind (body n)

/-! ## `setPixel` -/

/-- Embedding of `setPixel`: returns `erased` and the updated plane. The
operator `%` of C truncates towards zero, which is `Int.tmod`. -/
def setPixel (display : Nat → Nat) (x y : Int) : Option (Bool × (Nat → Nat)) :=
  let x := Int.tmod x CHIP8_WIDTH
  let y := Int.tmod y CHIP8_HEIGHT
  let index := y * CHIP8_WIDTH + x
  if 0 ≤ index ∧ index < (DISPLAY_SIZE : Int) then
    let erased := decide (display index.toNat = 1)
    some (erased, store display index.toNat (display index.toNat ^^^ 1))
  else none

/-! ## The instruction switch -/

/-- Inner loop of `Dxyn` over the eight columns of one sprite row; the loop
state is the plane and the register file. -/
def drawCol (spriteByte x y row : Nat) (col : Nat)
    (st : (Nat → Nat) × (Nat → Nat)) : Option ((Nat → Nat) × (Nat → Nat)) :=
  if spriteByte &&& (0x80 >>> col) ≠ 0 then
    match setPixel st.1 ((x : Int) + (col : Int)) ((y : Int) + (row : Int)) with
    | none => none
    | some (erased, display) =>
      if erased then some (display, store st.2 0xF 1) else some (display, st.2)
  else some st

/-- Outer loop body of `Dxyn`: one sprite row read from `memory[I + row]`. -/
def drawRow (memory : Nat → Nat) (I x y : Nat) (row : Nat)
    (st : (Nat → Nat) × (Nat → Nat)) : Option ((Nat → Nat) × (Nat → Nat)) :=
  if I + row < MEM_SIZE then
    forLoop (drawCol (memory (I + row)) x y row) st 8
  else none

/-- Loop body of `Fx55`: `memory[I + i] = V[i]`. -/
def dumpReg (V : Nat → Nat) (I : Nat) (i : Nat) (memory : Nat → Nat) :
    Option (Nat → Nat) :=
  if I + i < MEM_SIZE then some (store memory (I + i) (V i)) else none

/-- Loop body of `Fx65`: `V[i] = memory[I + i]`. -/
def loadReg (memory : Nat → Nat) (I : Nat) (i : Nat) (V : Nat → Nat) :
    Option (Nat → Nat) :=
  if I + i < MEM_SIZE then some (store V i (memory (I + i))) else none

/-- Inner `switch (instruction & 0x00FF)` of `case 0x0000`: clear (`00E0`)
and return (`00EE`). -/
def execute0 (s : Chip8) (instruction : Nat) : Option Chip8 :=
  if instruction &&& 0x00FF = 0x00E0 then
    some { s with display := fun i => if i < DISPLAY_SIZE then 0 else s.display i }
  else if instruction &&& 0x00FF = 0x00EE then
    let sp := (s.sp + 65535) % 65536
    if sp < 16 then some { s with sp := sp, PC := s.stack sp } else none
  else some s

/-- Inner `switch (instruction & 0x000F)` of `case 0x8000`: register to
register operations. -/
def execute8 (s : Chip8) (instruction : Nat) : Option Chip8 :=
  let x := (instruction &&& 0x0F00) >>> 8
  let y := (instruction &&& 0x00F0) >>> 4
  if instruction &&& 0x000F = 0x0000 then
    some { s with V := store s.V x (s.V y) }
  else if instruction &&& 0x000F = 0x0001 then
    some { s with V := store s.V x (s.V x ||| s.V y) }
  else if instruction &&& 0x000F = 0x0002 then
    some { s with V := store s.V x (s.V x &&& s.V y) }
  else if instruction &&& 0x000F = 0x0003 then
    some { s with V := store s.V x (s.V x ^^^ s.V y) }
  else if instruction &&& 0x000F = 0x0004 then
    let sum := (s.V x + s.V y) % 65536
    let V1 := store s.V 0xF (if sum > 255 then 1 else 0)
    some { s with V := store V1 x (sum &&& 0xFF) }
  else if instruction &&& 0x000F = 0x0005 then
    let V1 := if s.V x > s.V y then store s.V 0xF 1 else store s.V 0xF 0
    some { s with V := store V1 x (((V1 x : Int) - (V1 y : Int)) % 256).toNat }
  else if instruction &&& 0x000F = 0x0006 then
    let V1 := store s.V 0xF (s.V x &&& 0x1)
    some { s with V := store V1 x (V1 x >>> 1) }
  else if instruction &&& 0x000F = 0x0007 then
    let V1 := store s.V 0xF (if s.V y > s.V x then 1 else 0)
    some { s with V := store V1 x (((V1 y : Int) - (V1 x : Int)) % 256).toNat }
  else if instruction &&& 0x000F = 0x000E then
    let V1 := store s.V 0xF ((s.V x &&& 0x80) >>> 7)
    some { s with V := store V1 x ((V1 x <<< 1) % 256) }
  else some s

/-- Body of `case 0xD000`: draw a sprite of `instruction & 0x000F` rows. -/
def executeD (s : Chip8) (instruction : Nat) : Option Chip8 :=
  let x := s.V ((instruction &&& 0x0F00) >>> 8)
  let y := s.V ((instruction &&& 0x00F0) >>> 4)
  let height := instruction &&& 0x000F
  match forLoop (drawRow s.memory s.I x y) (s.display, store s.V 0xF 0) height with
  | none => none
  | some (display, V) => some { s with display := display, V := V }

/-- Inner `switch (instruction & 0x00FF)` of `case 0xE000`: skips on the key
latch. -/
def executeE (keys : Nat → Bool) (s : Chip8) (instruction : Nat) : Option Chip8 :=
  let x := (instruction &&& 0x0F00) >>> 8
  if instruction &&& 0x00FF = 0x009E then
    if s.V x < 16 then
      if keys (s.V x) then some { s with PC := (s.PC + 2) % 65536 } else some s
    else none
  else if instruction &&& 0x00FF = 0x00A1 then
    if s.V x < 16 then
      if !keys (s.V x) then some { s with PC := (s.PC + 2) % 65536 } else some s
    else none
  else some s

/-- Inner `switch (instruction & 0x00FF)` of `case 0xF000`: timers, key wait,
index register and memory transfers. -/
def executeF (keys : Nat → Bool) (s : Chip8) (instruction : Nat) : Option Chip8 :=
  let x := (instruction &&& 0x0F00) >>> 8
  if instruction &&& 0x00FF = 0x0007 then
    some { s with V := store s.V x s.DT }
  else if instruction &&& 0x00FF = 0x000A then
    match (List.range 16).find? keys with
    | some i => some { s with V := store s.V x i }
    | none => some { s with PC := (s.PC + 65534) % 65536 }
  else if instruction &&& 0x00FF = 0x0015 then
    some { s with DT := s.V x }
  else if instruction &&& 0x00FF = 0x0018 then
    some { s with ST := s.V x }
  else if instruction &&& 0x00FF = 0x001E then
    some { s with I := (s.I + s.V x) % 65536 }
  else if instruction &&& 0x00FF = 0x0029 then
    some { s with I := (0x50 + s.V x * 5) % 65536 }
  else if instruction &&& 0x00FF = 0x0033 then
    if s.I + 2 < MEM_SIZE then
      let m1 := store s.memory s.I (s.V x / 100)
      let m2 := store m1 (s.I + 1) ((s.V x / 10) % 10)
      some { s with memory := store m2 (s.I + 2) (s.V x % 10) }
    else none
  else if instruction &&& 0x00FF = 0x0055 then
    match forLoop (dumpReg s.V s.I) s.memory (x + 1) with
    | none => none
    | some memory => some { s with memory := memory }
  else if instruction &&& 0x00FF = 0x0065 then
    match forLoop (loadReg s.memory s.I) s.V (x + 1) with
    | none => none
    | some V => some { s with V := V }
  else some s

/-- The `switch (instruction & 0xF000)` of the CPU step: executes one
instruction on a state whose `PC` has already been advanced past it. `keys`
is the key latch and `rnd` the number drawn by `distrib(gen)`. -/
def execute (keys : Nat → Bool) (rnd : Nat) (s : Chip8) (instruction : Nat) :
    Option Chip8 :=
  let op := instruction &&& 0xF000
  let x := (instruction &&& 0x0F00) >>> 8
  let y := (instruction &&& 0x00F0) >>> 4
  if op = 0x0000 then execute0 s instruction
  else if op = 0x1000 then
    some { s with PC := instruction &&& 0x0FFF }
  else if op = 0x2000 then
    if s.sp < 16 then
      some { s with stack := store s.stack s.sp s.PC, sp := (s.sp + 1) % 65536,
                    PC := instruction &&& 0x0FFF }
    else none
  else if op = 0x3000 then
    if instruction &&& 0x00FF < 16 then
      if s.V x = s.V (instruction &&& 0x00FF) then
        some { s with PC := (s.PC + 2) % 65536 }
      else some s
    else none
  else if op = 0x4000 then
    if instruction &&& 0x00FF < 16 then
      if s.V x ≠ s.V (instruction &&& 0x00FF) then
        some { s with PC := (s.PC + 2) % 65536 }
      else some s
    else none
  else if op = 0x5000 then
    if s.V x = s.V y then some { s with PC := (s.PC + 2) % 65536 } else some s
  else if op = 0x6000 then
    some { s with V := store s.V x (instruction &&& 0x00FF) }
  else if op = 0x7000 then
    some { s with V := store s.V x ((s.V x + (instruction &&& 0x00FF)) % 256) }
  else if op = 0x8000 then execute8 s instruction
  else if op = 0x9000 then
    if s.V x ≠ s.V y then some { s with PC := (s.PC + 2) % 65536 } else some s
  else if op = 0xA000 then
    some { s with I := instruction &&& 0x0FFF }
  else if op = 0xB000 then
    some { s with PC := ((instruction &&& 0x0FFF) + s.V 0) % 65536 }
  else if op = 0xC000 then
    some { s with V := store s.V x ((instruction &&& 0x0FF) &&& (rnd % 256)) }
  else if op = 0xD000 then executeD s instruction
  else if op = 0xE000 then executeE keys s instruction
  else if op = 0xF000 then executeF keys s instruction
  else some s

/-- The fetch `(memory[PC] << 8) | memory[PC + 1]`, converted to `uint16_t`. -/
def fetch (s : Chip8) : Option Nat :=
  if s.PC + 1 < MEM_SIZE then
    some (((s.memory s.PC <<< 8) ||| s.memory (s.PC + 1)) % 65536)
  else none

/-- Everything the CPU step does after the fetch: `PC += 2`, then the
instruction switch. -/
def executeAt (keys : Nat → Bool) (rnd : Nat) (s : Chip8) (instruction : Nat) :
    Option Chip8 :=
  execute keys rnd { s with PC := (s.PC + 2) % 65536 } instruction

/-- One iteration of the CPU loop: fetch, `PC += 2`, execute. -/
def cycle (keys : Nat → Bool) (rnd : Nat) (s : Chip8) : Option Chip8 :=
  match fetch s with
  | none => none
  | some instruction => executeAt keys rnd s instruction

/-! ## Specification-side definitions for the draw operation -/

/-- The sprite of `n` rows stored at `memory[I ..]` and drawn at origin
`(vx, vy)` has a set bit on cell `(cx, cy)`: some `row < n` and `col < 8` wrap
to that cell and bit `7 - col` of `memory[I + row]` is set. -/
def spriteCovers (memory : Nat → Nat) (I vx vy n cx cy : Nat) : Prop :=
  ∃ row, row < n ∧ ∃ col, col < 8 ∧ (vx + col) % 64 = cx ∧ (vy + row) % 32 = cy ∧
    (memory (I + row)).testBit (7 - col) = true

instance (memory : Nat → Nat) (I vx vy n cx cy : Nat) :
    Decidable (spriteCovers memory I vx vy n cx cy) := by
  unfold spriteCovers
  infer_instance

/-- The value `s(cx, cy)` of the sprite on a cell: 1 where it has a set bit, else 0. -/
def spriteBit (memory : Nat → Nat) (I vx vy n cx cy : Nat) : Nat :=
  if spriteCovers memory I vx vy n cx cy then 1 else 0

/-- Some cell on which the sprite has a set bit holds 1 in `display`. -/
def spriteCollides (memory display : Nat → Nat) (I vx vy n : Nat) : Prop :=
  ∃ cx, cx < 64 ∧ ∃ cy, cy < 32 ∧
    spriteCovers memory I vx vy n cx cy ∧ display (cy * 64 + cx) = 1

instance (memory display : Nat → Nat) (I vx vy n : Nat) :
    Decidable (spriteCollides memory display I vx vy n) := by
  unfold spriteCollides
  infer_instance

/-! ## Loop invariant of the draw operation -/

/-- Plane index at which `Dxyn` draws sprite position `(row, col)`. -/
def drawIdx (vx vy row col : Nat) : Nat := (vy + row) % 32 * 64 + (vx + col) % 64

/-- Sprite positions already processed when the row loop is at `r` and the
column loop at `k`. -/
def drawDone (r k row col : Nat) : Prop := (row < r ∧ col < 8) ∨ (row = r ∧ col < k)

/-- Loop invariant of `Dxyn`: `Q` is the set of sprite positions already
processed, `bit` tells which positions hold a set sprite bit and `idx` is the
plane index a position is drawn at. A cell has been toggled iff a processed set
bit lies on it, and `VF` records whether a processed set bit lay on a cell that
was 1 in the plane `old`. -/
def DrawInv (old V0 : Nat → Nat) (idx : Nat → Nat → Nat) (bit Q : Nat → Nat → Prop)
    (st : (Nat → Nat) × (Nat → Nat)) : Prop :=
  (∀ c, (∃ row col, Q row col ∧ bit row col ∧ idx row col = c) → st.1 c = old c ^^^ 1) ∧
  (∀ c, (¬ ∃ row col, Q row col ∧ bit row col ∧ idx row col = c) → st.1 c = old c) ∧
  ((∃ row col, Q row col ∧ bit row col ∧ old (idx row col) = 1) → st.2 = store V0 0xF 1) ∧
  ((¬ ∃ row col, Q row col ∧ bit row col ∧ old (idx row col) = 1) → st.2 = store V0 0xF 0)

/-! ## Runs of calls and returns -/

/-- Executes the call instructions of `calls` one after the other; an entry
`(p, w)` is the instruction word `w` fetched at address `p`. -/
def callSeq (keys : Nat → Bool) (rnd : Nat) : List (Nat × Nat) → Chip8 → Option Chip8
  | [], s => some s
  | c :: rest, s => (executeAt keys rnd { s with PC := c.1 } c.2).bind (callSeq keys rnd rest)

/-- Executes `k` return instructions `00EE` one after the other and collects
the value of `PC` after each of them. -/
def returnSeq (keys : Nat → Bool) (rnd : Nat) (k : Nat) (s : Chip8) :
    Option (List Nat × Chip8) :=
  forLoop (fun _ r => (executeAt keys rnd r.2 0x00EE).map (fun s' => (r.1 ++ [s'.PC], s')))
    ([], s) k

/-! ## Instruction patterns -/

/-- The instruction word matches one of the patterns the specification lists
as recognised: `00E0`, `00EE`, `1nnn`, `2nnn`, `3xkk`, `4xkk`, `5xy0`, `6xkk`,
`7xkk`, `8xy0`-`8xy7`, `8xyE`, `9xy0`, `Annn`, `Bnnn`, `Cxkk`, `Dxyn`, `Ex9E`,
`ExA1`, `Fx07`, `Fx0A`, `Fx15`, `Fx18`, `Fx1E`, `Fx29`, `Fx33`, `Fx55`, `Fx65`. -/
def specPattern (w : Nat) : Prop :=
  w = 0x00E0 ∨ w = 0x00EE ∨
  w &&& 0xF000 = 0x1000 ∨ w &&& 0xF000 = 0x2000 ∨
  w &&& 0xF000 = 0x3000 ∨ w &&& 0xF000 = 0x4000 ∨
  (w &&& 0xF000 = 0x5000 ∧ w &&& 0x000F = 0x0000) ∨
  w &&& 0xF000 = 0x6000 ∨ w &&& 0xF000 = 0x7000 ∨
  (w &&& 0xF000 = 0x8000 ∧
    (w &&& 0x000F = 0x0000 ∨ w &&& 0x000F = 0x0001 ∨ w &&& 0x000F = 0x0002 ∨
     w &&& 0x000F = 0x0003 ∨ w &&& 0x000F = 0x0004 ∨ w &&& 0x000F = 0x0005 ∨
     w &&& 0x000F = 0x0006 ∨ w &&& 0x000F = 0x0007 ∨ w &&& 0x000F = 0x000E)) ∨
  (w &&& 0xF000 = 0x9000 ∧ w &&& 0x000F = 0x0000) ∨
  w &&& 0xF000 = 0xA000 ∨ w &&& 0xF000 = 0xB000 ∨
  w &&& 0xF000 = 0xC000 ∨ w &&& 0xF000 = 0xD000 ∨
  (w &&& 0xF000 = 0xE000 ∧ (w &&& 0x00FF = 0x009E ∨ w &&& 0x00FF = 0x00A1)) ∨
  (w &&& 0xF000 = 0xF000 ∧
    (w &&& 0x00FF = 0x0007 ∨ w &&& 0x00FF = 0x000A ∨ w &&& 0x00FF = 0x0015 ∨
     w &&& 0x00FF = 0x0018 ∨ w &&& 0x00FF = 0x001E ∨ w &&& 0x00FF = 0x0029 ∨
     w &&& 0x00FF = 0x0033 ∨ w &&& 0x00FF = 0x0055 ∨ w &&& 0x00FF = 0x0065))

instance (w : Nat) : Decidable (specPattern w) := by
  unfold specPattern
  infer_instance

/-- The instruction word is decoded by the switch although only its masked
nibbles match: `0nE0` and `0nEE` for any second nibble `n`, `5xyn` and `9xyn`
for any last nibble `n`. -/
def maskedPattern (w : Nat) : Prop :=
  (w &&& 0xF000 = 0x0000 ∧ (w &&& 0x00FF = 0x00E0 ∨ w &&& 0x00FF = 0x00EE)) ∨
  w &&& 0xF000 = 0x5000 ∨ w &&& 0xF000 = 0x9000

instance (w : Nat) : Decidable (maskedPattern w) := by
  unfold maskedPattern
  infer_instance

/-! ## Timers and the timer scheduler -/

/-- The timer update of the main loop (lines 399-400):
`if (DT > 0) DT--; if (ST > 0) ST--;`. -/
def timerUpdate (s : Chip8) : Chip8 :=
  { s with DT := if s.DT > 0 then s.DT - 1 else s.DT
           ST := if s.ST > 0 then s.ST - 1 else s.ST }

/-- The timer part of one outer-loop iteration (lines 397-402). The loop state
is the machine state and `lastTimerUpdate`; `now` is the time point taken at
the top of the iteration. Time points are counted in clock periods, `perMs`
periods to the millisecond, and `duration_cast<milliseconds>` is the division
by `perMs`. The truncated subtraction gives no tick when `now` lies before
`lastTimerUpdate`, as the negative count of the source does. -/
def timerPhase (perMs : Nat) (st : Chip8 × Nat) (now : Nat) : Chip8 × Nat :=
  if (now - st.2) / perMs ≥ 16 then (timerUpdate st.1, now) else st

/-- The timer part of the outer-loop iterations taken at the time points `ts`. -/
def timerSchedule (perMs : Nat) (ts : List Nat) (st : Chip8 × Nat) : Chip8 × Nat :=
  ts.foldl (timerPhase perMs) st

/-! ## Initialisation -/

/-- The table `chip8_fontset` (lines 72-89): five bytes for each of the digits
`0`..`F`. -/
def chip8_fontset : List Nat :=
  [0xF0, 0x90, 0x90, 0x90, 0xF0,
   0x20, 0x60, 0x20, 0x20, 0x70,
   0xF0, 0x10, 0xF0, 0x80, 0xF0,
   0xF0, 0x10, 0xF0, 0x10, 0xF0,
   0x90, 0x90, 0xF0, 0x10, 0x10,
   0xF0, 0x80, 0xF0, 0x10, 0xF0,
   0xF0, 0x80, 0xF0, 0x90, 0xF0,
   0xF0, 0x10, 0x20, 0x40, 0x40,
   0xF0, 0x90, 0xF0, 0x90, 0xF0,
   0xF0, 0x90, 0xF0, 0x10, 0xF0,
   0xF0, 0x90, 0xF0, 0x90, 0x90,
   0xE0, 0x90, 0xE0, 0x90, 0xE0,
   0xF0, 0x80, 0x80, 0x80, 0xF0,
   0xE0, 0x90, 0x90, 0x90, 0xE0,
   0xF0, 0x80, 0xF0, 0x80, 0xF0,
   0xF0, 0x80, 0xF0, 0x80, 0x80]

/-- Row `r` of the built-in glyph for the hexadecimal digit `d`. -/
def glyphRow (d r : Nat) : Nat := chip8_fontset.getD (5 * d + r) 0

/-- Loop body of the ROM load (line 58): `memory[0x200 + i] = buffer[i]`. The
buffer is given as its sequence of byte values. -/
def loadRomByte (buffer : List Nat) (i : Nat) (memory : Nat → Nat) : Option (Nat → Nat) :=
  if 0x200 + i < MEM_SIZE then some (store memory (0x200 + i) (buffer.getD i 0)) else none

/-- Loop body of the font copy (line 92): `memory[0x50 + i] = chip8_fontset[i]`. -/
def loadFontByte (i : Nat) (memory : Nat → Nat) : Option (Nat → Nat) :=
  if 0x50 + i < MEM_SIZE then some (store memory (0x50 + i) (chip8_fontset.getD i 0))
  else none

/-- Initialisation of the machine state (lines 25-36 and 56-93) from the bytes
of the ROM file. The source leaves `V`, `I` and `stack` uninitialised; their
contents are parameters. -/
def initialState (V : Nat → Nat) (I : Nat) (stack : Nat → Nat) (buffer : List Nat) :
    Option Chip8 :=
  match forLoop (loadRomByte buffer) (fun _ => 0) buffer.length with
  | none => none
  | some m1 =>
    match forLoop loadFontByte m1 80 with
    | none => none
    | some m2 =>
      some { memory := m2, display := fun _ => 0, V := V, I := I, PC := 0x200,
             stack := stack, sp := 0, DT := 0, ST := 0 }

/-! ## Runs of the main loop -/

/-- Executes instruction words one after the other; an entry `(keys, rnd, w)`
is the word `w` executed under the key latch `keys` and the random draw `rnd`. -/
def executeWords : List ((Nat → Bool) × Nat × Nat) → Chip8 → Option Chip8
  | [], s => some s
  | e :: rest, s => (executeAt e.1 e.2.1 s e.2.2).bind (executeWords rest)

/-- A run of the main loop as a sequence of events: `some (keys, rnd)` is one
CPU cycle under the key latch `keys` and the random draw `rnd`, `none` is one
timer update. -/
def runEvents : List (Option ((Nat → Bool) × Nat)) → Chip8 → Option Chip8
  | [], s => some s
  | none :: rest, s => runEvents rest (timerUpdate s)
  | some e :: rest, s => (cycle e.1 e.2 s).bind (runEvents rest)

/-! ## Concrete machine states -/

/-- A state with an all-zero plane, all-zero registers, `I = 0x300` and the
sprite row `0xF0` at `memory[0x300]`. -/
def drawDemo : Chip8 :=
  { memory := fun i => if i = 0x300 then 0xF0 else 0
    display := fun _ => 0
    V := fun _ => 0
    I := 0x300
    PC := 0x202
    stack := fun _ => 0
    sp := 0
    DT := 0
    ST := 0 }

/-- A state with `V0 = 5`, `VF = 3` and every other register 0. -/
def subDemo : Chip8 :=
  { drawDemo with V := fun i => if i = 0 then 5 else if i = 0xF then 3 else 0 }

/-- A state with `V0 = 1`, `V1 = 0`, `PC = 0x200` and the instruction `3001`
at `memory[0x200 ..]`. -/
def skipDemo : Chip8 :=
  { drawDemo with
    memory := fun i => if i = 0x200 then 0x30 else if i = 0x201 then 0x01 else 0
    V := fun i => if i = 0 then 1 else 0
    PC := 0x200 }

/-- A state with a full call stack (`sp = 16`). -/
def fullStackDemo : Chip8 :=
  { drawDemo with sp := 16 }

/-- A state with `V0 = 7`, `V1 = 9`, `V2 = 11` and `I = 0x400`. -/
def dumpDemo : Chip8 :=
  { drawDemo with
    V := fun i => if i = 0 then 7 else if i = 1 then 9 else if i = 2 then 11 else 0
    I := 0x400 }

/-- The state `drawDemo` with cell (0,0) of the plane lit and `PC = 0x200`. -/
def litDemo : Chip8 :=
  { drawDemo with display := fun i => if i = 0 then 1 else 0, PC := 0x200 }

/-- A state with `PC = 0x200` and the instruction `F30A` at `memory[0x200 ..]`. -/
def keyDemo : Chip8 :=
  { drawDemo with
    memory := fun i => if i = 0x200 then 0xF3 else if i = 0x201 then 0x0A else 0
    PC := 0x200 }

/-- A state with `PC = 0x200` and the unassigned instruction `8128` at
`memory[0x200 ..]`. -/
def nopDemo : Chip8 :=
  { drawDemo with
    memory := fun i => if i = 0x200 then 0x81 else if i = 0x201 then 0x28 else 0
    PC := 0x200 }

/-- A state with `PC = 0x200` and the program `60 05 70 03` at `memory[0x200 ..]`. -/
def addDemo : Chip8 :=
  { drawDemo with
    memory := fun i =>
      if i = 0x200 then 0x60 else if i = 0x201 then 0x05
      else if i = 0x202 then 0x70 else if i = 0x203 then 0x03 else 0
    V := fun i => if i = 0xF then 1 else 0
    PC := 0x200 }

/-- A state with `V3 = 157`, `I = 0x400`, `DT = 2` and `ST = 0`. -/
def bcdDemo : Chip8 :=
  { drawDemo with V := fun i => if i = 3 then 157 else 0, I := 0x400, DT := 2 }

/-- A state with `DT = 255` and `ST = 0`. -/
def timerDemo : Chip8 :=
  { drawDemo with DT := 255 }

/-! ## Auxiliary lemmas -/

theorem forLoop_invariant {σ : Type} (body : Nat → σ → Option σ) (init : σ)
    (Inv : Nat → σ → Prop) (n : Nat) (h0 : Inv 0 init)
    (hstep : ∀ i st, i < n → Inv i st → ∃ st', body i st = some st' ∧ Inv (i + 1) st') :
    ∃ st, forLoop body init n = some st ∧ Inv n st := by
  induction n with
  | zero => exact ⟨init, rfl, h0⟩
  | succ k ih =>
    obtain ⟨st, hst, hinv⟩ := ih (fun i st hi => hstep i st (Nat.lt_succ_of_lt hi))
    obtain ⟨st', hst', hinv'⟩ := hstep k st (Nat.lt_succ_self k) hinv
    exact ⟨st', by simp [forLoop, hst, hst'], hinv'⟩

theorem store_same (a : Nat → Nat) (i v : Nat) : store a i v i = v := by
  simp [store]

theorem store_other (a : Nat → Nat) (i v j : Nat) (h : j ≠ i) : store a i v j = a j := by
  simp [store, h]

theorem store_store (a : Nat → Nat) (i v w : Nat) :
    store (store a i v) i w = store a i w := by
  funext j
  by_cases h : j = i <;> simp [store, h]

theorem setPixel_natCast (d : Nat → Nat) (x c y r : Nat) :
    setPixel d ((x : Int) + (c : Int)) ((y : Int) + (r : Int)) =
      some (decide (d ((y + r) % 32 * 64 + (x + c) % 64) = 1),
        store d ((y + r) % 32 * 64 + (x + c) % 64)
          (d ((y + r) % 32 * 64 + (x + c) % 64) ^^^ 1)) := by
  have hx : Int.tmod ((x : Int) + (c : Int)) 64 = (((x + c) % 64 : Nat) : Int) := by
    rw [Int.tmod_eq_emod (by omega) (by omega)]
    omega
  have hy : Int.tmod ((y : Int) + (r : Int)) 32 = (((y + r) % 32 : Nat) : Int) := by
    rw [Int.tmod_eq_emod (by omega) (by omega)]
    omega
  have hi : (((y + r) % 32 : Nat) : Int) * 64 + (((x + c) % 64 : Nat) : Int) =
      (((y + r) % 32 * 64 + (x + c) % 64 : Nat) : Int) := by
    push_cast
    rfl
  have hlt : (y + r) % 32 * 64 + (x + c) % 64 < 2048 := by omega
  simp only [setPixel, CHIP8_WIDTH, CHIP8_HEIGHT, DISPLAY_SIZE, hx, hy, hi, Int.toNat_ofNat]
  rw [if_pos]
  constructor
  · exact Int.ofNat_nonneg _
  · exact_mod_cast hlt

theorem sprite_bit_iff (b col : Nat) (h : col < 8) :
    (b &&& (0x80 >>> col) ≠ 0) ↔ b.testBit (7 - col) = true := by
  have hp : (0x80 >>> col) = 2 ^ (7 - col) := by
    interval_cases col <;> decide
  rw [hp, Nat.and_two_pow]
  cases hb : b.testBit (7 - col) <;> simp

theorem DrawInv_skip (old V0 : Nat → Nat) (idx : Nat → Nat → Nat)
    (bit Q : Nat → Nat → Prop) (st : (Nat → Nat) × (Nat → Nat)) (r k : Nat)
    (hbit : ¬ bit r k) (h : DrawInv old V0 idx bit Q st) :
    DrawInv old V0 idx bit (fun row col => Q row col ∨ (row = r ∧ col = k)) st := by
  have e1 : ∀ c, (∃ row col, (Q row col ∨ (row = r ∧ col = k)) ∧ bit row col ∧ idx row col = c) ↔
      (∃ row col, Q row col ∧ bit row col ∧ idx row col = c) := by
    intro c
    constructor
    · rintro ⟨row, col, hq | ⟨rfl, rfl⟩, hb, hc⟩
      · exact ⟨row, col, hq, hb, hc⟩
      · exact absurd hb hbit
    · rintro ⟨row, col, hq, hb, hc⟩
      exact ⟨row, col, Or.inl hq, hb, hc⟩
  have e2 : (∃ row col, (Q row col ∨ (row = r ∧ col = k)) ∧ bit row col ∧ old (idx row col) = 1) ↔
      (∃ row col, Q row col ∧ bit row col ∧ old (idx row col) = 1) := by
    constructor
    · rintro ⟨row, col, hq | ⟨rfl, rfl⟩, hb, hc⟩
      · exact ⟨row, col, hq, hb, hc⟩
      · exact absurd hb hbit
    · rintro ⟨row, col, hq, hb, hc⟩
      exact ⟨row, col, Or.inl hq, hb, hc⟩
  obtain ⟨h1, h2, h3, h4⟩ := h
  refine ⟨fun c hc => h1 c ((e1 c).1 hc), fun c hc => h2 c (fun hn => hc ((e1 c).2 hn)),
    fun hc => h3 (e2.1 hc), fun hc => h4 (fun hn => hc (e2.2 hn))⟩

theorem DrawInv_toggle (old V0 : Nat → Nat) (idx : Nat → Nat → Nat)
    (bit Q : Nat → Nat → Prop) (st : (Nat → Nat) × (Nat → Nat)) (r k : Nat)
    (hbit : bit r k) (hfresh : ∀ row col, Q row col → idx row col ≠ idx r k)
    (h : DrawInv old V0 idx bit Q st) :
    DrawInv old V0 idx bit (fun row col => Q row col ∨ (row = r ∧ col = k))
      (store st.1 (idx r k) (st.1 (idx r k) ^^^ 1),
        if decide (st.1 (idx r k) = 1) = true then store st.2 0xF 1 else st.2) := by
  obtain ⟨h1, h2, h3, h4⟩ := h
  have hcur : st.1 (idx r k) = old (idx r k) := by
    apply h2
    rintro ⟨row, col, hq, -, hc⟩
    exact hfresh row col hq hc
  refine ⟨?_, ?_, ?_, ?_⟩
  · rintro c ⟨row, col, hq | ⟨rfl, rfl⟩, hb, hc⟩
    · have hne : c ≠ idx r k := fun e => hfresh row col hq (hc.trans e)
      simp only [store_other _ _ _ _ hne]
      exact h1 c ⟨row, col, hq, hb, hc⟩
    · subst hc
      simp only [store_same, hcur]
  · intro c hc
    have hne : c ≠ idx r k := fun e => hc ⟨r, k, Or.inr ⟨rfl, rfl⟩, hbit, e.symm⟩
    simp only [store_other _ _ _ _ hne]
    exact h2 c (fun ⟨row, col, hq, hb, he⟩ => hc ⟨row, col, Or.inl hq, hb, he⟩)
  · rintro ⟨row, col, hq | ⟨rfl, rfl⟩, hb, hc⟩
    · have := h3 ⟨row, col, hq, hb, hc⟩
      simp only [this]
      split
      · exact store_store _ _ _ _
      · rfl
    · simp only [hcur, hc, decide_True, if_true]
      by_cases hq : ∃ row col, Q row col ∧ bit row col ∧ old (idx row col) = 1
      · rw [h3 hq, store_store]
      · rw [h4 hq, store_store]
  · intro hc
    have hq : ¬ ∃ row col, Q row col ∧ bit row col ∧ old (idx row col) = 1 :=
      fun ⟨row, col, hq, hb, he⟩ => hc ⟨row, col, Or.inl hq, hb, he⟩
    have hne : old (idx r k) ≠ 1 := fun e => hc ⟨r, k, Or.inr ⟨rfl, rfl⟩, hbit, e⟩
    simp only [hcur, hne, decide_False, Bool.false_eq_true, if_false]
    exact h4 hq

theorem drawCol_step (old V0 : Nat → Nat) (b vx vy r k : Nat) (bit : Nat → Nat → Prop)
    (hb : ∀ col, bit r col ↔ b &&& (0x80 >>> col) ≠ 0)
    (st : (Nat → Nat) × (Nat → Nat)) (hr : r < 16) (hk : k < 8)
    (h : DrawInv old V0 (drawIdx vx vy) bit (drawDone r k) st) :
    ∃ st', drawCol b vx vy r k st = some st' ∧
      DrawInv old V0 (drawIdx vx vy) bit (drawDone r (k + 1)) st' := by
  have hQ : drawDone r (k + 1) = fun row col => drawDone r k row col ∨ (row = r ∧ col = k) := by
    funext row col
    apply propext
    unfold drawDone
    omega
  rw [hQ]
  by_cases hbit : b &&& (0x80 >>> k) ≠ 0
  · have hfresh : ∀ row col, drawDone r k row col → drawIdx vx vy row col ≠ drawIdx vx vy r k := by
      intro row col hq
      unfold drawDone at hq
      unfold drawIdx
      omega
    have := DrawInv_toggle old V0 (drawIdx vx vy) bit (drawDone r k) st r k
      ((hb k).2 hbit) hfresh h
    simp only [drawCol, hbit, setPixel_natCast, if_true, ne_eq, not_false_eq_true]
    by_cases he : st.1 ((vy + r) % 32 * 64 + (vx + k) % 64) = 1
    · refine ⟨_, ?_, this⟩
      simp [drawIdx, he]
    · refine ⟨_, ?_, this⟩
      simp [drawIdx, he]
  · refine ⟨st, ?_, DrawInv_skip old V0 (drawIdx vx vy) bit (drawDone r k) st r k
      (fun hh => hbit ((hb k).1 hh)) h⟩
    simp only [drawCol, hbit, if_false]

theorem drawRow_step (old V0 memory : Nat → Nat) (I vx vy r : Nat)
    (st : (Nat → Nat) × (Nat → Nat)) (hr : r < 16) (hI : I + r < 4096)
    (h : DrawInv old V0 (drawIdx vx vy)
      (fun row col => memory (I + row) &&& (0x80 >>> col) ≠ 0) (drawDone r 0) st) :
    ∃ st', drawRow memory I vx vy r st = some st' ∧
      DrawInv old V0 (drawIdx vx vy)
        (fun row col => memory (I + row) &&& (0x80 >>> col) ≠ 0) (drawDone (r + 1) 0) st' := by
  have hQ : drawDone (r + 1) 0 = drawDone r 8 := by
    funext row col
    apply propext
    unfold drawDone
    omega
  rw [hQ]
  simp only [drawRow, MEM_SIZE, hI, if_true]
  exact forLoop_invariant _ st
    (fun k st => DrawInv old V0 (drawIdx vx vy)
      (fun row col => memory (I + row) &&& (0x80 >>> col) ≠ 0) (drawDone r k) st) 8 h
    (fun k st hk hinv => drawCol_step old V0 (memory (I + r)) vx vy r k _
      (fun col => Iff.rfl) st hr hk hinv)

theorem draw_loop (old V0 memory : Nat → Nat) (I vx vy n : Nat) (hn : n < 16)
    (hI : I + n ≤ 4096) :
    ∃ st, forLoop (drawRow memory I vx vy) (old, store V0 0xF 0) n = some st ∧
      DrawInv old V0 (drawIdx vx vy)
        (fun row col => memory (I + row) &&& (0x80 >>> col) ≠ 0) (drawDone n 0) st := by
  apply forLoop_invariant _ _
    (fun r st => DrawInv old V0 (drawIdx vx vy)
      (fun row col => memory (I + row) &&& (0x80 >>> col) ≠ 0) (drawDone r 0) st) n
  · refine ⟨?_, ?_, ?_, ?_⟩
    · rintro c ⟨row, col, hq, -⟩
      unfold drawDone at hq
      omega
    · intro c _
      rfl
    · rintro ⟨row, col, hq, -⟩
      unfold drawDone at hq
      omega
    · intro _
      rfl
  · intro r st hr hinv
    exact drawRow_step old V0 memory I vx vy r st (by omega) (by omega) hinv

theorem covers_iff (memory : Nat → Nat) (I vx vy n cx cy : Nat) (hx : cx < 64) :
    (∃ row col, drawDone n 0 row col ∧ memory (I + row) &&& (0x80 >>> col) ≠ 0 ∧
      drawIdx vx vy row col = cy * 64 + cx) ↔ spriteCovers memory I vx vy n cx cy := by
  constructor
  · rintro ⟨row, col, hq, hb, hi⟩
    unfold drawDone at hq
    unfold drawIdx at hi
    have hc : col < 8 := by omega
    exact ⟨row, by omega, col, hc, by omega, by omega, (sprite_bit_iff _ col hc).1 hb⟩
  · rintro ⟨row, hr, col, hc, h1, h2, hb⟩
    refine ⟨row, col, Or.inl ⟨hr, hc⟩, (sprite_bit_iff _ col hc).2 hb, ?_⟩
    unfold drawIdx
    omega

theorem collides_iff (memory old : Nat → Nat) (I vx vy n : Nat) :
    (∃ row col, drawDone n 0 row col ∧ memory (I + row) &&& (0x80 >>> col) ≠ 0 ∧
      old (drawIdx vx vy row col) = 1) ↔ spriteCollides memory old I vx vy n := by
  constructor
  · rintro ⟨row, col, hq, hb, ho⟩
    unfold drawDone at hq
    have hc : col < 8 := by omega
    refine ⟨(vx + col) % 64, Nat.mod_lt _ (by decide), (vy + row) % 32,
      Nat.mod_lt _ (by decide), ⟨row, by omega, col, hc, rfl, rfl,
        (sprite_bit_iff _ col hc).1 hb⟩, ho⟩
  · rintro ⟨cx, hx, cy, hy, ⟨row, hr, col, hc, h1, h2, hb⟩, ho⟩
    refine ⟨row, col, Or.inl ⟨hr, hc⟩, (sprite_bit_iff _ col hc).2 hb, ?_⟩
    unfold drawIdx
    rw [h1, h2]
    exact ho

theorem draw_spec (keys : Nat → Bool) (rnd : Nat) (s : Chip8) (instruction : Nat)
    (hop : instruction &&& 0xF000 = 0xD000)
    (hI : s.I + (instruction &&& 0x000F) ≤ 4096) :
    ∃ d, execute keys rnd s instruction = some { s with
        display := d,
        V := store s.V 0xF
          (if spriteCollides s.memory s.display s.I (s.V ((instruction &&& 0x0F00) >>> 8))
            (s.V ((instruction &&& 0x00F0) >>> 4)) (instruction &&& 0x000F) then 1 else 0) } ∧
      ∀ cx cy, cx < 64 → cy < 32 → d (cy * 64 + cx) = s.display (cy * 64 + cx) ^^^
        spriteBit s.memory s.I (s.V ((instruction &&& 0x0F00) >>> 8))
          (s.V ((instruction &&& 0x00F0) >>> 4)) (instruction &&& 0x000F) cx cy := by
  have hn : instruction &&& 0x000F < 16 := Nat.lt_succ_of_le Nat.and_le_right
  obtain ⟨st, hst, h1, h2, h3, h4⟩ := draw_loop s.display s.V s.memory s.I
    (s.V ((instruction &&& 0x0F00) >>> 8)) (s.V ((instruction &&& 0x00F0) >>> 4))
    (instruction &&& 0x000F) hn hI
  refine ⟨st.1, ?_, ?_⟩
  · have hV : st.2 = store s.V 0xF
        (if spriteCollides s.memory s.display s.I (s.V ((instruction &&& 0x0F00) >>> 8))
          (s.V ((instruction &&& 0x00F0) >>> 4)) (instruction &&& 0x000F) then 1 else 0) := by
      by_cases hc : spriteCollides s.memory s.display s.I (s.V ((instruction &&& 0x0F00) >>> 8))
          (s.V ((instruction &&& 0x00F0) >>> 4)) (instruction &&& 0x000F)
      · rw [if_pos hc]
        exact h3 ((collides_iff _ _ _ _ _ _).2 hc)
      · rw [if_neg hc]
        exact h4 (fun hh => hc ((collides_iff _ _ _ _ _ _).1 hh))
    simp only [execute, executeD, hop]
    norm_num
    rw [hst, ← hV]
  · intro cx cy hx hy
    by_cases hc : spriteCovers s.memory s.I (s.V ((instruction &&& 0x0F00) >>> 8))
        (s.V ((instruction &&& 0x00F0) >>> 4)) (instruction &&& 0x000F) cx cy
    · rw [spriteBit, if_pos hc]
      exact h1 _ ((covers_iff _ _ _ _ _ _ _ hx).2 hc)
    · rw [spriteBit, if_neg hc]
      rw [h2 _ (fun hh => hc ((covers_iff _ _ _ _ _ _ _ hx).1 hh))]
      exact (Nat.xor_zero _).symm

/-! ## The stack pointer under the instruction switch -/

theorem of_elim {α : Type} {o : Option α} {P : α → Prop} (h : o.elim True P) :
    ∀ a, o = some a → P a := by
  intro a ha
  rw [ha] at h
  exact h

theorem elim_ite {α : Type} (c : Prop) [Decidable c] (a b : Option α) (P : α → Prop)
    (ha : a.elim True P) (hb : b.elim True P) : (if c then a else b).elim True P := by
  split <;> assumption

theorem elim_some {α : Type} (a : α) (P : α → Prop) (h : P a) : (some a).elim True P := h

theorem elim_none {α : Type} (P : α → Prop) : (none : Option α).elim True P := trivial

theorem execute0_sp (s : Chip8) (instruction : Nat) (hlow : instruction &&& 0x00FF ≠ 0x00EE) :
    (execute0 s instruction).elim True (fun t => t.sp = s.sp) := by
  unfold execute0
  rw [if_neg hlow]
  apply elim_ite <;> exact elim_some _ _ rfl

theorem execute8_sp (s : Chip8) (instruction : Nat) :
    (execute8 s instruction).elim True (fun t => t.sp = s.sp) := by
  unfold execute8
  dsimp only
  repeat' (with_reducible apply elim_ite)
  all_goals exact elim_some _ _ rfl

theorem executeD_sp (s : Chip8) (instruction : Nat) :
    (executeD s instruction).elim True (fun t => t.sp = s.sp) := by
  unfold executeD
  dsimp only
  split
  · exact elim_none _
  · exact elim_some _ _ rfl

theorem executeE_sp (keys : Nat → Bool) (s : Chip8) (instruction : Nat) :
    (executeE keys s instruction).elim True (fun t => t.sp = s.sp) := by
  unfold executeE
  dsimp only
  repeat' (with_reducible apply elim_ite)
  all_goals first | exact elim_none _ | exact elim_some _ _ rfl

theorem executeF_sp (keys : Nat → Bool) (s : Chip8) (instruction : Nat) :
    (executeF keys s instruction).elim True (fun t => t.sp = s.sp) := by
  unfold executeF
  dsimp only
  repeat' (with_reducible apply elim_ite)
  all_goals first | exact elim_none _ | exact elim_some _ _ rfl | skip
  all_goals split
  all_goals first | exact elim_none _ | exact elim_some _ _ rfl

theorem execute_sp (keys : Nat → Bool) (rnd : Nat) (s : Chip8) (instruction : Nat)
    (hcall : instruction &&& 0xF000 ≠ 0x2000)
    (hret : ¬ (instruction &&& 0xF000 = 0x0000 ∧ instruction &&& 0x00FF = 0x00EE)) :
    (execute keys rnd s instruction).elim True (fun t => t.sp = s.sp) := by
  unfold execute
  dsimp only
  rw [if_neg hcall]
  by_cases h0 : instruction &&& 0xF000 = 0x0000
  · rw [if_pos h0]
    exact execute0_sp s instruction (fun h => hret ⟨h0, h⟩)
  rw [if_neg h0]
  repeat' (with_reducible apply elim_ite)
  all_goals first
    | exact elim_none _ 
    | exact elim_some _ _ rfl
    | exact execute8_sp s instruction
    | exact executeD_sp s instruction
    | exact executeE_sp keys s instruction
    | exact executeF_sp keys s instruction

/-! ## Draw operation (`Dxyn`) -/

/-- C1: executing `Dxyn` with `I + n ≤ 4096` succeeds; every cell `(cx, cy)` of
the 64x32 plane then holds its old value XOR `s(cx, cy)`, where `s` is the
sprite read from `memory[I ..]` at origin `(Vx, Vy)` (both read before `VF` is
reset), and `VF` is 1 iff a cell with `s = 1` held 1 before the draw, else 0.
In particular, on an all-zero plane with `memory[I] = 0xF0`, `n = 1` and
`Vx = Vy = 0`, cells (0,0)..(3,0) become 1, cells (4,0)..(7,0) stay 0 and
`VF = 0`. -/
theorem draw_xor_blit_with_collision (keys : Nat → Bool) (rnd : Nat) (s : Chip8)
    (instruction : Nat) (hop : instruction &&& 0xF000 = 0xD000)
    (hI : s.I + (instruction &&& 0x000F) ≤ 4096) :
    ∃ s', execute keys rnd s instruction = some s' ∧
      (∀ cx cy, cx < 64 → cy < 32 →
        s'.display (cy * 64 + cx) = s.display (cy * 64 + cx) ^^^
          spriteBit s.memory s.I (s.V ((instruction &&& 0x0F00) >>> 8))
            (s.V ((instruction &&& 0x00F0) >>> 4)) (instruction &&& 0x000F) cx cy) ∧
      s'.V 0xF =
        (if spriteCollides s.memory s.display s.I (s.V ((instruction &&& 0x0F00) >>> 8))
          (s.V ((instruction &&& 0x00F0) >>> 4)) (instruction &&& 0x000F) then 1 else 0) ∧
      ((∀ i, i < 2048 → s.display i = 0) → s.memory s.I = 0xF0 →
        instruction &&& 0x000F = 1 → s.V ((instruction &&& 0x0F00) >>> 8) = 0 →
        s.V ((instruction &&& 0x00F0) >>> 4) = 0 →
        (∀ cx, cx < 4 → s'.display (0 * 64 + cx) = 1) ∧
        (∀ cx, 4 ≤ cx → cx < 8 → s'.display (0 * 64 + cx) = 0) ∧ s'.V 0xF = 0) := by
  obtain ⟨d, hd, hcell⟩ := draw_spec keys rnd s instruction hop hI
  refine ⟨_, hd, hcell, ?_, ?_⟩
  · dsimp only
    rw [store_same]
  intro hzero hmem hn hvx hvy
  have hcov : ∀ cx, spriteCovers s.memory s.I 0 0 1 cx 0 ↔ cx < 4 := by
    intro cx
    constructor
    · rintro ⟨row, hr, col, hc, h1, -, hb⟩
      have hrow : row = 0 := by omega
      subst hrow
      rw [Nat.add_zero, hmem] at hb
      by_contra hcx
      have h4 : 4 ≤ col := by omega
      interval_cases col <;> simp [Nat.testBit, Nat.shiftRight_eq_div_pow] at hb
    · intro hcx
      refine ⟨0, by decide, cx, by omega, by omega, by decide, ?_⟩
      rw [Nat.add_zero, hmem]
      interval_cases cx <;> rfl
  refine ⟨?_, ?_, ?_⟩
  · intro cx hcx
    have := hcell cx 0 (by omega) (by decide)
    rw [hn, hvx, hvy, spriteBit, if_pos ((hcov cx).2 hcx), hzero _ (by omega)] at this
    exact this
  · intro cx h4 h8
    have := hcell cx 0 (by omega) (by decide)
    rw [hn, hvx, hvy, spriteBit, if_neg (fun h => absurd ((hcov cx).1 h) (by omega)),
      hzero _ (by omega)] at this
    exact this
  · dsimp only
    rw [store_same, if_neg]
    rintro ⟨cx, hx, cy, hy, -, hone⟩
    rw [hzero _ (by omega)] at hone
    exact absurd hone (by decide)

/-- Witness for C1: the draw `D001` on the state `drawDemo`. -/
theorem draw_xor_blit_with_collision_witness :
    0xD001 &&& 0xF000 = 0xD000 ∧ drawDemo.I + (0xD001 &&& 0x000F) ≤ 4096 ∧
    ∃ s', execute (fun _ => false) 0 drawDemo 0xD001 = some s' ∧
      s'.display 0 = 1 ∧ s'.display 3 = 1 ∧ s'.display 4 = 0 ∧ s'.display 7 = 0 ∧
      s'.V 0xF = 0 := by
  refine ⟨by decide, by decide, ?_⟩
  obtain ⟨s', hs', -, -, hinst⟩ :=
    draw_xor_blit_with_collision (fun _ => false) 0 drawDemo 0xD001 (by decide) (by decide)
  obtain ⟨h1, h0, hf⟩ := hinst (fun _ _ => rfl) (by decide) (by decide) rfl rfl
  exact ⟨s', hs', h1 0 (by decide), h1 3 (by decide), h0 4 (by decide) (by decide),
    h0 7 (by decide) (by decide), hf⟩

/-- C2: executing the same `Dxyn` twice in a row (register operands other than
`VF`, `I + n ≤ 4096`, same `I` and memory) leaves every cell of the pixel plane
as it was before the first draw, and the second draw ends with `VF = 1`
whenever the first draw turned some cell from 0 to 1. -/
theorem draw_twice_restores_plane (keys keys' : Nat → Bool) (rnd rnd' : Nat) (s : Chip8)
    (instruction : Nat) (hop : instruction &&& 0xF000 = 0xD000)
    (hI : s.I + (instruction &&& 0x000F) ≤ 4096)
    (hx : (instruction &&& 0x0F00) >>> 8 ≠ 0xF) (hy : (instruction &&& 0x00F0) >>> 4 ≠ 0xF) :
    ∃ s1 s2, execute keys rnd s instruction = some s1 ∧
      execute keys' rnd' s1 instruction = some s2 ∧
      (∀ i, i < DISPLAY_SIZE → s2.display i = s.display i) ∧
      ((∃ cx cy, cx < 64 ∧ cy < 32 ∧ s.display (cy * 64 + cx) = 0 ∧
          s1.display (cy * 64 + cx) = 1) → s2.V 0xF = 1) := by
  obtain ⟨d1, hd1, hcell1⟩ := draw_spec keys rnd s instruction hop hI
  obtain ⟨d2, hd2, hcell2⟩ := draw_spec keys' rnd' _ instruction hop
    (show ({ s with display := d1, V := store s.V 0xF _ } : Chip8).I + _ ≤ 4096 from hI)
  simp only [store_other _ _ _ _ hx, store_other _ _ _ _ hy] at hd2 hcell2
  refine ⟨_, _, hd1, hd2, ?_, ?_⟩
  · intro i hi
    have hi' : i < 2048 := hi
    have hc2 := hcell2 (i % 64) (i / 64) (Nat.mod_lt _ (by decide)) (by omega)
    have hc1 := hcell1 (i % 64) (i / 64) (Nat.mod_lt _ (by decide)) (by omega)
    rw [Nat.div_add_mod' i 64] at hc1 hc2
    show d2 i = s.display i
    rw [hc2, hc1, Nat.xor_assoc, Nat.xor_self, Nat.xor_zero]
  · rintro ⟨cx, cy, hcx, hcy, h0, h1⟩
    dsimp only
    rw [store_same, if_pos]
    refine ⟨cx, hcx, cy, hcy, ?_, h1⟩
    have hc1 := hcell1 cx cy hcx hcy
    rw [h0] at hc1
    by_contra hcov
    rw [spriteBit, if_neg hcov] at hc1
    have h1' : d1 (cy * 64 + cx) = 1 := h1
    rw [hc1] at h1'
    exact absurd h1' (by decide)

/-- Witness for C2: the draw `D011` on the state `drawDemo`. -/
theorem draw_twice_restores_plane_witness :
    ∃ s1 s2, execute (fun _ => false) 0 drawDemo 0xD011 = some s1 ∧
      execute (fun _ => false) 0 s1 0xD011 = some s2 ∧
      (∀ i, i < DISPLAY_SIZE → s2.display i = drawDemo.display i) ∧
      ((∃ cx cy, cx < 64 ∧ cy < 32 ∧ drawDemo.display (cy * 64 + cx) = 0 ∧
          s1.display (cy * 64 + cx) = 1) → s2.V 0xF = 1) :=
  draw_twice_restores_plane (fun _ => false) (fun _ => false) 0 0 drawDemo 0xD011
    (by decide) (by decide) (by decide) (by decide)

/-! ## Arithmetic with flag (`8xy4`, `8xy5`) -/

/-- C3: `8xy4` with `x` other than `0xF` and 8-bit register values `a = Vx`,
`b = Vy` (any `y`, also `y = x` and `y = 0xF`) ends with `Vx = (a + b) mod 256`,
`VF = 1` if `a + b > 255` and `VF = 0` otherwise, every other register
unchanged. -/
theorem add_with_carry (keys : Nat → Bool) (rnd : Nat) (s : Chip8) (instruction : Nat)
    (hop : instruction &&& 0xF000 = 0x8000) (hlow : instruction &&& 0x000F = 0x0004)
    (hx : (instruction &&& 0x0F00) >>> 8 ≠ 0xF)
    (ha : s.V ((instruction &&& 0x0F00) >>> 8) < 256)
    (hb : s.V ((instruction &&& 0x00F0) >>> 4) < 256) :
    ∃ s', execute keys rnd s instruction = some s' ∧
      s'.V ((instruction &&& 0x0F00) >>> 8) =
        (s.V ((instruction &&& 0x0F00) >>> 8) + s.V ((instruction &&& 0x00F0) >>> 4)) % 256 ∧
      s'.V 0xF =
        (if s.V ((instruction &&& 0x0F00) >>> 8) + s.V ((instruction &&& 0x00F0) >>> 4) > 255
          then 1 else 0) ∧
      ∀ j, j ≠ (instruction &&& 0x0F00) >>> 8 → j ≠ 0xF → s'.V j = s.V j := by
  have hsum : (s.V ((instruction &&& 0x0F00) >>> 8) + s.V ((instruction &&& 0x00F0) >>> 4))
      % 65536 = s.V ((instruction &&& 0x0F00) >>> 8) + s.V ((instruction &&& 0x00F0) >>> 4) :=
    Nat.mod_eq_of_lt (by omega)
  have hmask : ∀ v : Nat, v &&& 0xFF = v % 256 := fun v =>
    Nat.and_pow_two_sub_one_eq_mod v 8
  have hex : execute keys rnd s instruction = some { s with
      V := store (store s.V 0xF
        (if s.V ((instruction &&& 0x0F00) >>> 8) + s.V ((instruction &&& 0x00F0) >>> 4) > 255
          then 1 else 0)) ((instruction &&& 0x0F00) >>> 8)
        ((s.V ((instruction &&& 0x0F00) >>> 8) + s.V ((instruction &&& 0x00F0) >>> 4)) % 256) } := by
    simp only [execute, execute8, hop, hlow, hsum, hmask]
    norm_num
  refine ⟨_, hex, ?_, ?_, ?_⟩
  · dsimp only
    rw [store_same]
  · dsimp only
    rw [store_other _ _ _ _ (Ne.symm hx), store_same]
  · intro j hj hF
    dsimp only
    rw [store_other _ _ _ _ hj, store_other _ _ _ _ hF]

/-- Witness for C3: `80F4` on `subDemo` (`x = 0`, `y = 0xF`, `V0 = 5`, `VF = 3`). -/
theorem add_with_carry_witness :
    ∃ s', execute (fun _ => false) 0 subDemo 0x80F4 = some s' ∧
      s'.V ((0x80F4 &&& 0x0F00) >>> 8) =
        (subDemo.V ((0x80F4 &&& 0x0F00) >>> 8) + subDemo.V ((0x80F4 &&& 0x00F0) >>> 4)) % 256 ∧
      s'.V 0xF =
        (if subDemo.V ((0x80F4 &&& 0x0F00) >>> 8) + subDemo.V ((0x80F4 &&& 0x00F0) >>> 4) > 255
          then 1 else 0) ∧
      ∀ j, j ≠ (0x80F4 &&& 0x0F00) >>> 8 → j ≠ 0xF → s'.V j = subDemo.V j :=
  add_with_carry (fun _ => false) 0 subDemo 0x80F4 (by decide) (by decide) (by decide)
    (by decide) (by decide)

/-- C4, evaluated at `80F5` with `V0 = 5`, `VF = 3`: the flag is written before
the subtraction re-reads its operands, so `V0` ends as `5 - 1 = 4` and not as
`(5 - 3) mod 256 = 2`. -/
theorem sub_reads_flag_as_operand :
    subDemo.V 0 = 5 ∧ subDemo.V 0xF = 3 ∧
    ∃ s', execute (fun _ => false) 0 subDemo 0x80F5 = some s' ∧
      s'.V 0xF = 1 ∧ s'.V 0 = 4 ∧ s'.V 0 ≠ (5 - 3) % 256 :=
  ⟨rfl, rfl, _, rfl, rfl, rfl, by decide⟩

/-! ## Skips on an immediate (`3xkk`, `4xkk`) -/

/-- C5, evaluated on `skipDemo` (`V0 = 1`, `V1 = 0`, fetch address `0x200`): the
code compares `Vx` with the register `V[kk]`, so `3001` does not skip although
`V0 = kk`, `4001` skips although `V0 = kk`, and `3010` reads `V[16]`, which is
outside the register array. -/
theorem skip_compares_with_register :
    skipDemo.PC = 0x200 ∧ skipDemo.V 0 = 1 ∧ fetch skipDemo = some 0x3001 ∧
    (∃ s', cycle (fun _ => false) 0 skipDemo = some s' ∧ s'.PC = 0x200 + 2) ∧
    (∃ s', executeAt (fun _ => false) 0 skipDemo 0x4001 = some s' ∧ s'.PC = 0x200 + 4) ∧
    executeAt (fun _ => false) 0 skipDemo 0x3010 = none :=
  ⟨rfl, rfl, rfl, ⟨_, rfl, rfl⟩, ⟨_, rfl, rfl⟩, rfl⟩

/-! ## Call and return (`2nnn`, `00EE`) -/

theorem call_step (keys : Nat → Bool) (rnd : Nat) (s : Chip8) (p w : Nat)
    (hop : w &&& 0xF000 = 0x2000) (hsp : s.sp < 16) (hp : p + 2 < 65536) :
    executeAt keys rnd { s with PC := p } w =
      some { s with stack := store s.stack s.sp (p + 2), sp := s.sp + 1, PC := w &&& 0x0FFF } := by
  have h1 : (p + 2) % 65536 = p + 2 := Nat.mod_eq_of_lt hp
  have h2 : (s.sp + 1) % 65536 = s.sp + 1 := Nat.mod_eq_of_lt (by omega)
  simp only [executeAt, execute, hop, h1, h2, hsp]
  norm_num

theorem return_word_step (keys : Nat → Bool) (rnd : Nat) (s : Chip8) (w : Nat)
    (hop : w &&& 0xF000 = 0x0000) (hlow : w &&& 0x00FF = 0x00EE)
    (h1 : 1 ≤ s.sp) (h16 : s.sp ≤ 16) :
    executeAt keys rnd s w =
      some { s with sp := s.sp - 1, PC := s.stack (s.sp - 1) } := by
  have h : (s.sp + 65535) % 65536 = s.sp - 1 := by omega
  have hlt : s.sp - 1 < 16 := by omega
  simp only [executeAt, execute, execute0, hop, hlow, h, hlt]
  norm_num

theorem return_step (keys : Nat → Bool) (rnd : Nat) (s : Chip8)
    (h1 : 1 ≤ s.sp) (h16 : s.sp ≤ 16) :
    executeAt keys rnd s 0x00EE =
      some { s with sp := s.sp - 1, PC := s.stack (s.sp - 1) } :=
  return_word_step keys rnd s 0x00EE (by decide) (by decide) h1 h16

theorem returnSeq_snoc (keys : Nat → Bool) (rnd : Nat) (k : Nat) (s s2 s3 : Chip8)
    (pcs : List Nat) (h : returnSeq keys rnd k s = some (pcs, s2))
    (hret : executeAt keys rnd s2 0x00EE = some s3) :
    returnSeq keys rnd (k + 1) s = some (pcs ++ [s3.PC], s3) := by
  unfold returnSeq at h ⊢
  rw [forLoop, h]
  simp only [Option.some_bind, hret, Option.map_some']

theorem nested_calls_return_lifo (keys : Nat → Bool) (rnd : Nat) (calls : List (Nat × Nat)) :
    ∀ s : Chip8, s.sp + calls.length ≤ 16 →
      (∀ c ∈ calls, c.2 &&& 0xF000 = 0x2000 ∧ c.1 + 2 < 65536) →
      ∃ s1 s2, callSeq keys rnd calls s = some s1 ∧
        returnSeq keys rnd calls.length s1 =
          some ((calls.map (fun c => c.1 + 2)).reverse, s2) ∧
        s2.sp = s.sp ∧ ∀ i, i < s.sp → s2.stack i = s.stack i := by
  induction calls with
  | nil =>
    intro s _ _
    exact ⟨s, s, rfl, rfl, rfl, fun _ _ => rfl⟩
  | cons c rest ih =>
    intro s hlen hall
    simp only [List.length_cons] at hlen
    obtain ⟨hop, hp⟩ := hall c (List.mem_cons_self _ _)
    have hcall := call_step keys rnd s c.1 c.2 hop (by omega) hp
    obtain ⟨s1, s2, hs1, hs2, hsp2, hstack2⟩ :=
      ih { s with stack := store s.stack s.sp (c.1 + 2), sp := s.sp + 1, PC := c.2 &&& 0x0FFF }
        (by simp only; omega) (fun c' hc' => hall c' (List.mem_cons_of_mem _ hc'))
    simp only at hsp2 hstack2
    have hret := return_step keys rnd s2 (by omega) (by omega)
    have hsnoc := returnSeq_snoc keys rnd rest.length s1 s2 _ _ hs2 hret
    refine ⟨s1, { s2 with sp := s2.sp - 1, PC := s2.stack (s2.sp - 1) }, ?_, ?_, ?_, ?_⟩
    · simp only [callSeq, hcall, Option.some_bind, hs1]
    · rw [List.length_cons, hsnoc]
      simp only [List.map_cons, List.reverse_cons, hsp2, Nat.add_sub_cancel,
        hstack2 s.sp (Nat.lt_succ_self _), store_same]
    · simp only [hsp2, Nat.add_sub_cancel]
    · intro i hi
      simp only
      rw [hstack2 i (by omega), store_other _ _ _ _ (by omega)]

/-- C6: with `SP ≤ 15`, a call `2nnn` fetched at `p` stores `p + 2` at
`stack[SP]`, increments `SP` and jumps to `nnn`; the return `00EE` executed
next ends with `PC = p + 2`, `SP` at its value before the call and the stack
slots below it unchanged. More generally, `k` nested calls followed by `k`
returns (`SP + k ≤ 16`) come back to the call sites in reverse order. -/
theorem call_return_round_trip (keys : Nat → Bool) (rnd : Nat) (s : Chip8) (instruction : Nat)
    (hop : instruction &&& 0xF000 = 0x2000) (hsp : s.sp ≤ 15) (hpc : s.PC + 2 < 65536) :
    (∃ s1 s2, executeAt keys rnd s instruction = some s1 ∧
      s1.stack s.sp = s.PC + 2 ∧ s1.sp = s.sp + 1 ∧ s1.PC = instruction &&& 0x0FFF ∧
      executeAt keys rnd s1 0x00EE = some s2 ∧
      s2.PC = s.PC + 2 ∧ s2.sp = s.sp ∧ ∀ i, i < s.sp → s2.stack i = s.stack i) ∧
    (∀ calls : List (Nat × Nat), s.sp + calls.length ≤ 16 →
      (∀ c ∈ calls, c.2 &&& 0xF000 = 0x2000 ∧ c.1 + 2 < 65536) →
      ∃ s1 s2, callSeq keys rnd calls s = some s1 ∧
        returnSeq keys rnd calls.length s1 =
          some ((calls.map (fun c => c.1 + 2)).reverse, s2) ∧
        s2.sp = s.sp ∧ ∀ i, i < s.sp → s2.stack i = s.stack i) := by
  refine ⟨?_, fun calls => nested_calls_return_lifo keys rnd calls s⟩
  have hcall := call_step keys rnd s s.PC instruction hop (by omega) hpc
  have hret := return_step keys rnd
    { s with stack := store s.stack s.sp (s.PC + 2), sp := s.sp + 1,
             PC := instruction &&& 0x0FFF } (by simp only; omega) (by simp only; omega)
  refine ⟨_, _, hcall, ?_, rfl, rfl, hret, ?_, ?_, ?_⟩
  · simp only [store_same]
  · simp only [Nat.add_sub_cancel, store_same]
  · simp only [Nat.add_sub_cancel]
  · intro i hi
    simp only
    rw [store_other _ _ _ _ (by omega)]

/-- Witness for C6: the call `2300` fetched at `0x200` on `skipDemo`, and the
nested calls `2300` at `0x200` and `2400` at `0x300`. -/
theorem call_return_round_trip_witness :
    (∃ s1 s2, executeAt (fun _ => false) 0 skipDemo 0x2300 = some s1 ∧
      s1.stack skipDemo.sp = 0x202 ∧ s1.sp = 1 ∧ s1.PC = 0x300 ∧
      executeAt (fun _ => false) 0 s1 0x00EE = some s2 ∧ s2.PC = 0x202 ∧ s2.sp = 0) ∧
    (∃ s1 s2, callSeq (fun _ => false) 0 [(0x200, 0x2300), (0x300, 0x2400)] skipDemo = some s1 ∧
      returnSeq (fun _ => false) 0 2 s1 = some ([0x302, 0x202], s2) ∧ s2.sp = 0) := by
  obtain ⟨⟨s1, s2, h1, h2, h3, h4, h5, h6, h7, -⟩, hk⟩ :=
    call_return_round_trip (fun _ => false) 0 skipDemo 0x2300 (by decide) (by decide)
      (by decide)
  obtain ⟨t1, t2, k1, k2, k3, -⟩ := hk [(0x200, 0x2300), (0x300, 0x2400)] (by decide)
    (by decide)
  exact ⟨⟨s1, s2, h1, h2, h3, h4, h5, h6, h7⟩, ⟨t1, t2, k1, k2, k3⟩⟩

/-! ## Stack pointer bound -/

theorem execute_call (keys : Nat → Bool) (rnd : Nat) (s : Chip8) (w : Nat)
    (hop : w &&& 0xF000 = 0x2000) (hsp : s.sp < 16) :
    execute keys rnd s w =
      some { s with stack := store s.stack s.sp s.PC, sp := s.sp + 1, PC := w &&& 0x0FFF } := by
  have h2 : (s.sp + 1) % 65536 = s.sp + 1 := Nat.mod_eq_of_lt (by omega)
  simp only [execute, hop, h2, hsp]
  norm_num

theorem execute_return (keys : Nat → Bool) (rnd : Nat) (s : Chip8) (w : Nat)
    (hop : w &&& 0xF000 = 0x0000) (hlow : w &&& 0x00FF = 0x00EE)
    (h1 : 1 ≤ s.sp) (h16 : s.sp ≤ 16) :
    execute keys rnd s w = some { s with sp := s.sp - 1, PC := s.stack (s.sp - 1) } := by
  have h : (s.sp + 65535) % 65536 = s.sp - 1 := by omega
  have hlt : s.sp - 1 < 16 := by omega
  simp only [execute, execute0, hop, hlow, h, hlt]
  norm_num

/-- C7 as stated fails: a return executed at `SP = 0` wraps `sp` to 65535 and
reads `stack[65535]`, and a call executed at `SP = 16` writes `stack[16]`; both
accesses are outside the 16-slot array, so neither has an after-state with
`SP ≤ 16`. -/
theorem sp_bound_broken_by_unguarded_stack :
    drawDemo.sp = 0 ∧
    (¬ ∃ s', execute (fun _ => false) 0 drawDemo 0x00EE = some s' ∧ s'.sp ≤ 16) ∧
    fullStackDemo.sp = 16 ∧
    (¬ ∃ s', execute (fun _ => false) 0 fullStackDemo 0x2300 = some s' ∧ s'.sp ≤ 16) := by
  refine ⟨rfl, ?_, rfl, ?_⟩
  · rintro ⟨s', h, -⟩
    have hnone : execute (fun _ => false) 0 drawDemo 0x00EE = none := rfl
    rw [hnone] at h
    cases h
  · rintro ⟨s', h, -⟩
    have hnone : execute (fun _ => false) 0 fullStackDemo 0x2300 = none := rfl
    rw [hnone] at h
    cases h

/-- C7, amended: from a state with `SP ≤ 16`, every instruction other than a
call executed at `SP = 16` and a return executed at `SP = 0` ends, whenever all
its array accesses are in bounds, with `SP ≤ 16`; a call at `SP ≤ 15` executes
and ends with `SP + 1`, a return at `SP ≥ 1` executes and ends with `SP - 1`,
and every other instruction leaves `SP` unchanged. -/
theorem sp_bound_preserved (keys : Nat → Bool) (rnd : Nat) (s : Chip8) (instruction : Nat)
    (hsp : s.sp ≤ 16)
    (hcall : instruction &&& 0xF000 = 0x2000 → s.sp ≠ 16)
    (hret : instruction &&& 0xF000 = 0x0000 → instruction &&& 0x00FF = 0x00EE → s.sp ≠ 0) :
    (∀ s', execute keys rnd s instruction = some s' → s'.sp ≤ 16) ∧
    (instruction &&& 0xF000 = 0x2000 →
      ∃ s', execute keys rnd s instruction = some s' ∧ s'.sp = s.sp + 1) ∧
    (instruction &&& 0xF000 = 0x0000 → instruction &&& 0x00FF = 0x00EE →
      ∃ s', execute keys rnd s instruction = some s' ∧ s'.sp + 1 = s.sp) ∧
    (instruction &&& 0xF000 ≠ 0x2000 →
      ¬ (instruction &&& 0xF000 = 0x0000 ∧ instruction &&& 0x00FF = 0x00EE) →
      ∀ s', execute keys rnd s instruction = some s' → s'.sp = s.sp) := by
  refine ⟨?_, ?_, ?_, fun h2 h0 s' h => of_elim (execute_sp keys rnd s instruction h2 h0) s' h⟩
  · intro s' h
    by_cases h2 : instruction &&& 0xF000 = 0x2000
    · rw [execute_call keys rnd s instruction h2 (by have := hcall h2; omega)] at h
      cases h
      have := hcall h2
      show s.sp + 1 ≤ 16
      omega
    by_cases h0 : instruction &&& 0xF000 = 0x0000 ∧ instruction &&& 0x00FF = 0x00EE
    · have hne := hret h0.1 h0.2
      rw [execute_return keys rnd s instruction h0.1 h0.2 (by omega) hsp] at h
      cases h
      show s.sp - 1 ≤ 16
      omega
    · have := of_elim (execute_sp keys rnd s instruction h2 h0) s' h
      simp only at this
      omega
  · intro h2
    exact ⟨_, execute_call keys rnd s instruction h2 (by have := hcall h2; omega), rfl⟩
  · intro h0 hlow
    have hne := hret h0 hlow
    refine ⟨_, execute_return keys rnd s instruction h0 hlow (by omega) hsp, ?_⟩
    show s.sp - 1 + 1 = s.sp
    omega

/-- Witness for C7 (amended): the call `2300` on `drawDemo`, where `SP = 0`. -/
theorem sp_bound_preserved_witness :
    drawDemo.sp ≤ 16 ∧
    ∃ s', execute (fun _ => false) 0 drawDemo 0x2300 = some s' ∧ s'.sp = drawDemo.sp + 1 ∧
      s'.sp ≤ 16 := by
  obtain ⟨hle, hc, -, -⟩ := sp_bound_preserved (fun _ => false) 0 drawDemo 0x2300 (by decide)
    (fun _ => by decide) (fun h => absurd h (by decide))
  obtain ⟨s', hs', hsp⟩ := hc (by decide)
  exact ⟨by decide, s', hs', hsp, hle s' hs'⟩

/-! ## Register dump and load (`Fx55`, `Fx65`) -/

theorem dump_loop (V memory : Nat → Nat) (I n : Nat) (hI : I + n ≤ 4096) :
    ∃ m, forLoop (dumpReg V I) memory n = some m ∧
      (∀ i, i < n → m (I + i) = V i) ∧ ∀ j, (j < I ∨ I + n ≤ j) → m j = memory j := by
  refine forLoop_invariant (dumpReg V I) memory
    (fun (k : Nat) (m : Nat → Nat) =>
      (∀ i, i < k → m (I + i) = V i) ∧ ∀ j, (j < I ∨ I + k ≤ j) → m j = memory j) n ?_ ?_
  · exact ⟨fun i hi => absurd hi (Nat.not_lt_zero i), fun _ _ => rfl⟩
  · rintro k m hk ⟨h1, h2⟩
    have hlt : I + k < MEM_SIZE := by unfold MEM_SIZE; omega
    refine ⟨store m (I + k) (V k), by simp only [dumpReg, hlt, if_true], ?_, ?_⟩
    · intro i hi
      by_cases hik : i = k
      · rw [hik, store_same]
      · rw [store_other _ _ _ _ (by omega)]
        exact h1 i (by omega)
    · intro j hj
      rw [store_other _ _ _ _ (by omega)]
      exact h2 j (by omega)

theorem load_loop (memory V : Nat → Nat) (I n : Nat) (hI : I + n ≤ 4096) :
    ∃ V', forLoop (loadReg memory I) V n = some V' ∧
      (∀ i, i < n → V' i = memory (I + i)) ∧ ∀ j, n ≤ j → V' j = V j := by
  refine forLoop_invariant (loadReg memory I) V
    (fun (k : Nat) (V' : Nat → Nat) =>
      (∀ i, i < k → V' i = memory (I + i)) ∧ ∀ j, k ≤ j → V' j = V j) n ?_ ?_
  · exact ⟨fun i hi => absurd hi (Nat.not_lt_zero i), fun _ _ => rfl⟩
  · rintro k V' hk ⟨h1, h2⟩
    have hlt : I + k < MEM_SIZE := by unfold MEM_SIZE; omega
    refine ⟨store V' k (memory (I + k)), by simp only [loadReg, hlt, if_true], ?_, ?_⟩
    · intro i hi
      by_cases hik : i = k
      · rw [hik, store_same]
      · rw [store_other _ _ _ _ hik]
        exact h1 i (by omega)
    · intro j hj
      rw [store_other _ _ _ _ (by omega)]
      exact h2 j (by omega)

/-- C8: with `I + x ≤ 4095`, `Fx55` executes, changes no register and leaves
`I` alone; if then the state is changed arbitrarily except for memory and `I`,
`Fx65` with the same `x` executes, ends with `V0..Vx` at their values from
before the `Fx55`, leaves `V(x+1)..VF` as they were before the `Fx65` and leaves
`I` alone. -/
theorem dump_load_round_trip (keys keys' : Nat → Bool) (rnd rnd' : Nat) (s : Chip8)
    (w55 w65 : Nat)
    (hop55 : w55 &&& 0xF000 = 0xF000) (hlow55 : w55 &&& 0x00FF = 0x0055)
    (hop65 : w65 &&& 0xF000 = 0xF000) (hlow65 : w65 &&& 0x00FF = 0x0065)
    (hx : (w65 &&& 0x0F00) >>> 8 = (w55 &&& 0x0F00) >>> 8)
    (hI : s.I + (w55 &&& 0x0F00) >>> 8 ≤ 4095) :
    ∃ s1, execute keys rnd s w55 = some s1 ∧ s1.V = s.V ∧ s1.I = s.I ∧
      ∀ s2 : Chip8, s2.memory = s1.memory → s2.I = s1.I →
        ∃ s3, execute keys' rnd' s2 w65 = some s3 ∧
          (∀ i, i ≤ (w55 &&& 0x0F00) >>> 8 → s3.V i = s.V i) ∧
          (∀ j, (w55 &&& 0x0F00) >>> 8 < j → s3.V j = s2.V j) ∧ s3.I = s2.I := by
  obtain ⟨m, hm, hm1, -⟩ := dump_loop s.V s.memory s.I ((w55 &&& 0x0F00) >>> 8 + 1) (by omega)
  have h55 : execute keys rnd s w55 = some { s with memory := m } := by
    simp only [execute, executeF, hop55, hlow55, hm]
    norm_num
  refine ⟨_, h55, rfl, rfl, ?_⟩
  intro s2 hmem hI2
  have hmem' : s2.memory = m := hmem
  have hI2' : s2.I = s.I := hI2
  obtain ⟨V', hV, hV1, hV2⟩ := load_loop s2.memory s2.V s2.I ((w55 &&& 0x0F00) >>> 8 + 1)
    (by omega)
  have h65 : execute keys' rnd' s2 w65 = some { s2 with V := V' } := by
    simp only [execute, executeF, hop65, hlow65, hx, hV]
    norm_num
  refine ⟨_, h65, ?_, ?_, rfl⟩
  · intro i hi
    show V' i = s.V i
    rw [hV1 i (by omega), hmem', hI2', hm1 i (by omega)]
  · intro j hj
    exact hV2 j (by omega)

/-- Witness for C8: `F255` and `F265` on `dumpDemo`, with all registers zeroed
in between. -/
theorem dump_load_round_trip_witness :
    ∃ s1, execute (fun _ => false) 0 dumpDemo 0xF255 = some s1 ∧
      ∃ s3, execute (fun _ => false) 0 { s1 with V := fun _ => 0 } 0xF265 = some s3 ∧
        s3.V 0 = 7 ∧ s3.V 1 = 9 ∧ s3.V 2 = 11 := by
  obtain ⟨s1, h1, -, -, h⟩ := dump_load_round_trip (fun _ => false) (fun _ => false) 0 0
    dumpDemo 0xF255 0xF265 (by decide) (by decide) (by decide) (by decide) (by decide)
    (by decide)
  obtain ⟨s3, h3, hV, -, -⟩ := h { s1 with V := fun _ => 0 } rfl rfl
  exact ⟨s1, h1, s3, h3, hV 0 (by decide), hV 1 (by decide), hV 2 (by decide)⟩

/-! ## Unrecognised instructions -/

theorem fetch_bound (s : Chip8) (w : Nat) (h : fetch s = some w) : s.PC + 1 < 4096 := by
  unfold fetch MEM_SIZE at h
  by_contra hn
  rw [if_neg hn] at h
  cases h

/-- C9 as stated fails: `01E0` and `5001` match none of the listed patterns,
yet the switch decodes them by their masked nibbles: `01E0` clears the plane
and `5001` skips when `V0 = V0`. -/
theorem unlisted_word_is_executed :
    ¬ specPattern 0x01E0 ∧ litDemo.display 0 = 1 ∧
    (∃ s', executeAt (fun _ => false) 0 litDemo 0x01E0 = some s' ∧ s'.display 0 = 0) ∧
    ¬ specPattern 0x5001 ∧ litDemo.PC = 0x200 ∧
    (∃ s', executeAt (fun _ => false) 0 litDemo 0x5001 = some s' ∧ s'.PC = 0x200 + 4) :=
  ⟨by decide, rfl, ⟨_, rfl, rfl⟩, by decide, rfl, ⟨_, rfl, rfl⟩⟩

/-- C9, amended: a fetched instruction word that matches none of the listed
patterns and is none of `0nE0`, `0nEE`, `5xyn`, `9xyn` leaves registers, `I`,
stack, `SP`, timers, memory and pixel plane unchanged and sets `PC` to the
fetch address plus 2. -/
theorem unrecognised_is_noop (keys : Nat → Bool) (rnd : Nat) (s : Chip8) (w : Nat)
    (hfetch : fetch s = some w) (hspec : ¬ specPattern w) (hmask : ¬ maskedPattern w) :
    cycle keys rnd s = some { s with PC := s.PC + 2 } := by
  have hpc : (s.PC + 2) % 65536 = s.PC + 2 :=
    Nat.mod_eq_of_lt (by have := fetch_bound s w hfetch; omega)
  simp only [specPattern, not_or, not_and] at hspec
  obtain ⟨-, -, h1, h2, h3, h4, -, h6, h7, h8, -, hA, hB, hC, hD, hE, hF⟩ := hspec
  simp only [maskedPattern, not_or, not_and] at hmask
  obtain ⟨h0, h5, h9⟩ := hmask
  unfold cycle
  rw [hfetch]
  unfold executeAt execute
  dsimp only
  rw [hpc, if_neg h1, if_neg h2, if_neg h3, if_neg h4, if_neg h5, if_neg h6, if_neg h7,
    if_neg h9, if_neg hA, if_neg hB, if_neg hC, if_neg hD]
  by_cases c0 : w &&& 0xF000 = 0x0000
  · obtain ⟨e0, eE⟩ := h0 c0
    rw [if_pos c0]
    unfold execute0
    rw [if_neg e0, if_neg eE]
  rw [if_neg c0]
  by_cases c8 : w &&& 0xF000 = 0x8000
  · obtain ⟨n0, n1, n2, n3, n4, n5, n6, n7, nE⟩ := h8 c8
    rw [if_pos c8]
    unfold execute8
    dsimp only
    rw [if_neg n0, if_neg n1, if_neg n2, if_neg n3, if_neg n4, if_neg n5, if_neg n6,
      if_neg n7, if_neg nE]
  rw [if_neg c8]
  by_cases cE : w &&& 0xF000 = 0xE000
  · obtain ⟨e1, e2⟩ := hE cE
    rw [if_pos cE]
    unfold executeE
    dsimp only
    rw [if_neg e1, if_neg e2]
  rw [if_neg cE]
  by_cases cF : w &&& 0xF000 = 0xF000
  · obtain ⟨f1, f2, f3, f4, f5, f6, f7, f8, f9⟩ := hF cF
    rw [if_pos cF]
    unfold executeF
    dsimp only
    rw [if_neg f1, if_neg f2, if_neg f3, if_neg f4, if_neg f5, if_neg f6, if_neg f7,
      if_neg f8, if_neg f9]
  rw [if_neg cF]

/-- Witness for C9 (amended): the unassigned word `8128` fetched on `nopDemo`. -/
theorem unrecognised_is_noop_witness :
    fetch nopDemo = some 0x8128 ∧ ¬ specPattern 0x8128 ∧ ¬ maskedPattern 0x8128 ∧
    cycle (fun _ => false) 0 nopDemo = some { nopDemo with PC := nopDemo.PC + 2 } :=
  ⟨rfl, by decide, by decide,
    unrecognised_is_noop (fun _ => false) 0 nopDemo 0x8128 rfl (by decide) (by decide)⟩

/-! ## Wait for a key (`Fx0A`) -/

theorem scan_none (keys : Nat → Bool) (h : ∀ i, i < 16 → keys i = false) :
    (List.range 16).find? keys = none := by
  rw [List.find?_range_eq_none]
  intro i hi
  rw [h i hi]
  rfl

theorem scan_some (keys : Nat → Bool) (k : Nat) (hk : k < 16) (hp : keys k = true)
    (hmin : ∀ j, j < k → keys j = false) : (List.range 16).find? keys = some k := by
  rw [List.find?_range_eq_some]
  refine ⟨hp, List.mem_range.2 hk, ?_⟩
  intro j hj
  rw [hmin j hj]
  rfl

/-- C10: a full cycle (fetch, `PC += 2`, execute) on `Fx0A` leaves the whole
machine state, `PC` included, as it was when no key `0..F` is pressed; when
some key is pressed it sets `Vx` to the smallest pressed key code, leaves `PC`
at the fetch address plus 2 and changes nothing else. -/
theorem wait_for_key (keys : Nat → Bool) (rnd : Nat) (s : Chip8) (w : Nat)
    (hfetch : fetch s = some w) (hop : w &&& 0xF000 = 0xF000)
    (hlow : w &&& 0x00FF = 0x000A) :
    ((∀ i, i < 16 → keys i = false) → cycle keys rnd s = some s) ∧
    ((∃ i, i < 16 ∧ keys i = true) →
      ∃ k, k < 16 ∧ keys k = true ∧ (∀ j, j < k → keys j = false) ∧
        cycle keys rnd s =
          some { s with V := store s.V ((w &&& 0x0F00) >>> 8) k, PC := s.PC + 2 }) := by
  have hb := fetch_bound s w hfetch
  have hpc : (s.PC + 2) % 65536 = s.PC + 2 := Nat.mod_eq_of_lt (by omega)
  have hback : (s.PC + 2 + 65534) % 65536 = s.PC := by omega
  constructor
  · intro hnone
    simp only [cycle, hfetch, executeAt, execute, executeF, hop, hlow, hpc,
      scan_none keys hnone, hback]
    norm_num
  · intro hsome
    have hex : ∃ i, i < 16 ∧ keys i = true := hsome
    refine ⟨Nat.find hex, (Nat.find_spec hex).1, (Nat.find_spec hex).2, ?_, ?_⟩
    · intro j hj
      have := Nat.find_min hex hj
      by_cases hkj : keys j = true
      · exact absurd ⟨by have := (Nat.find_spec hex).1; omega, hkj⟩ this
      · simpa using hkj
    · have hscan := scan_some keys (Nat.find hex) (Nat.find_spec hex).1 (Nat.find_spec hex).2
        (by
          intro j hj
          have := Nat.find_min hex hj
          by_cases hkj : keys j = true
          · exact absurd ⟨by have := (Nat.find_spec hex).1; omega, hkj⟩ this
          · simpa using hkj)
      simp only [cycle, hfetch, executeAt, execute, executeF, hop, hlow, hpc, hscan]
      norm_num

/-- Witness for C10: `F30A` fetched on `keyDemo`, once with no key pressed and
once with keys 5 and 9 pressed, which stores 5 in `V3`. -/
theorem wait_for_key_witness :
    fetch keyDemo = some 0xF30A ∧
    cycle (fun _ => false) 0 keyDemo = some keyDemo ∧
    cycle (fun i => decide (i = 5 ∨ i = 9)) 0 keyDemo =
      some { keyDemo with V := store keyDemo.V 3 5, PC := 0x202 } := by
  refine ⟨rfl, ?_, ?_⟩
  · exact (wait_for_key (fun _ => false) 0 keyDemo 0xF30A rfl (by decide) (by decide)).1
      (fun _ _ => rfl)
  · obtain ⟨k, -, hk, hmin, hc⟩ :=
      (wait_for_key (fun i => decide (i = 5 ∨ i = 9)) 0 keyDemo 0xF30A rfl (by decide)
        (by decide)).2 ⟨5, by decide, by decide⟩
    have hk5 : k = 5 := by
      have h59 : k = 5 ∨ k = 9 := by simpa using hk
      rcases h59 with h | h
      · exact h
      · have := hmin 5 (by omega)
        simp at this
    rw [hk5] at hc
    exact hc

/-! ## Fetch, load immediate and add immediate (`6xkk`, `7xkk`) -/

theorem low_byte_and (lo m : Nat) (hlo : lo < 256) (hm : 0xFF &&& m = 0) : lo &&& m = 0 := by
  have h : lo &&& 0xFF = lo := Nat.and_pow_two_sub_one_of_lt_two_pow (n := 8) hlo
  rw [← h, Nat.and_assoc, hm, Nat.and_zero]

theorem fetched_word (hi lo : Nat) (hhi : hi < 256) (hlo : lo < 256) :
    ((hi <<< 8 ||| lo) % 65536) &&& 0xF000 = (hi <<< 8) &&& 0xF000 ∧
    (((hi <<< 8 ||| lo) % 65536) &&& 0x0F00) >>> 8 = ((hi <<< 8) &&& 0x0F00) >>> 8 ∧
    ((hi <<< 8 ||| lo) % 65536) &&& 0x00FF = lo := by
  have e : hi <<< 8 ||| lo = 2 ^ 8 * hi + lo := by
    rw [Nat.shiftLeft_eq, Nat.mul_comm]
    exact (Nat.mul_add_lt_is_or (i := 8) hlo hi).symm
  have hlt : (hi <<< 8 ||| lo) % 65536 = hi <<< 8 ||| lo := by
    apply Nat.mod_eq_of_lt
    rw [e]
    omega
  rw [hlt]
  refine ⟨?_, ?_, ?_⟩
  · rw [Nat.and_distrib_right, low_byte_and lo _ hlo (by decide), Nat.or_zero]
  · rw [Nat.and_distrib_right, low_byte_and lo _ hlo (by decide), Nat.or_zero]
  · have h := Nat.and_pow_two_sub_one_eq_mod (hi <<< 8 ||| lo) 8
    have h' : (hi <<< 8 ||| lo) &&& 0x00FF = (hi <<< 8 ||| lo) % 256 := h
    rw [h', e]
    omega

theorem load_word_fields (x k : Nat) (hx : x < 16) (hk : k < 256) :
    ((((0x60 ||| x) <<< 8) ||| k) % 65536) &&& 0xF000 = 0x6000 ∧
    (((((0x60 ||| x) <<< 8) ||| k) % 65536) &&& 0x0F00) >>> 8 = x ∧
    ((((0x60 ||| x) <<< 8) ||| k) % 65536) &&& 0x00FF = k := by
  have h1 : ∀ x, x < 16 → 0x60 ||| x < 256 := by decide
  have h2 : ∀ x, x < 16 → ((0x60 ||| x) <<< 8) &&& 0xF000 = 0x6000 := by decide
  have h3 : ∀ x, x < 16 → (((0x60 ||| x) <<< 8) &&& 0x0F00) >>> 8 = x := by decide
  obtain ⟨a, b, c⟩ := fetched_word (0x60 ||| x) k (h1 x hx) hk
  exact ⟨a.trans (h2 x hx), b.trans (h3 x hx), c⟩

theorem add_word_fields (x k : Nat) (hx : x < 16) (hk : k < 256) :
    ((((0x70 ||| x) <<< 8) ||| k) % 65536) &&& 0xF000 = 0x7000 ∧
    (((((0x70 ||| x) <<< 8) ||| k) % 65536) &&& 0x0F00) >>> 8 = x ∧
    ((((0x70 ||| x) <<< 8) ||| k) % 65536) &&& 0x00FF = k := by
  have h1 : ∀ x, x < 16 → 0x70 ||| x < 256 := by decide
  have h2 : ∀ x, x < 16 → ((0x70 ||| x) <<< 8) &&& 0xF000 = 0x7000 := by decide
  have h3 : ∀ x, x < 16 → (((0x70 ||| x) <<< 8) &&& 0x0F00) >>> 8 = x := by decide
  obtain ⟨a, b, c⟩ := fetched_word (0x70 ||| x) k (h1 x hx) hk
  exact ⟨a.trans (h2 x hx), b.trans (h3 x hx), c⟩

theorem cycle_load (keys : Nat → Bool) (rnd : Nat) (s : Chip8) (x k : Nat)
    (hx : x < 16) (hk : k < 256) (hpc : s.PC + 1 < 4096)
    (h0 : s.memory s.PC = 0x60 ||| x) (h1 : s.memory (s.PC + 1) = k) :
    cycle keys rnd s = some { s with V := store s.V x k, PC := s.PC + 2 } := by
  obtain ⟨a, b, c⟩ := load_word_fields x k hx hk
  have hmod : (s.PC + 2) % 65536 = s.PC + 2 := Nat.mod_eq_of_lt (by omega)
  have hlt : s.PC + 1 < MEM_SIZE := hpc
  simp only [cycle, fetch, hlt, if_true, h0, h1, executeAt, execute, a, b, c, hmod]
  norm_num

theorem cycle_add (keys : Nat → Bool) (rnd : Nat) (s : Chip8) (x k : Nat)
    (hx : x < 16) (hk : k < 256) (hpc : s.PC + 1 < 4096)
    (h0 : s.memory s.PC = 0x70 ||| x) (h1 : s.memory (s.PC + 1) = k) :
    cycle keys rnd s =
      some { s with V := store s.V x ((s.V x + k) % 256), PC := s.PC + 2 } := by
  obtain ⟨a, b, c⟩ := add_word_fields x k hx hk
  have hmod : (s.PC + 2) % 65536 = s.PC + 2 := Nat.mod_eq_of_lt (by omega)
  have hlt : s.PC + 1 < MEM_SIZE := hpc
  simp only [cycle, fetch, hlt, if_true, h0, h1, executeAt, execute, a, b, c, hmod]
  norm_num

/-- C11: with `PC = p ≤ 4092`, `x` other than `0xF` and the bytes
`0x60|x, k1, 0x70|x, k2` at `memory[p .. p+3]`, two cycles fetch the words
big-endian and end with `Vx = (k1 + k2) mod 256` and `PC = p + 4`; `VF`, every
other register, `I`, `SP`, timers, memory and pixel plane are unchanged. For
`60 05 70 03` this gives `V0 = 8`. -/
theorem load_then_add_two_cycles (keys keys' : Nat → Bool) (rnd rnd' : Nat) (s : Chip8)
    (x k1 k2 : Nat) (hx : x < 16) (hxF : x ≠ 0xF) (hk1 : k1 < 256) (hk2 : k2 < 256)
    (hp : s.PC ≤ 4092)
    (m0 : s.memory s.PC = 0x60 ||| x) (m1 : s.memory (s.PC + 1) = k1)
    (m2 : s.memory (s.PC + 2) = 0x70 ||| x) (m3 : s.memory (s.PC + 3) = k2) :
    ∃ s1 s2, cycle keys rnd s = some s1 ∧ cycle keys' rnd' s1 = some s2 ∧
      s2 = { s with V := store s.V x ((k1 + k2) % 256), PC := s.PC + 4 } ∧
      s2.V x = (k1 + k2) % 256 ∧ s2.PC = s.PC + 4 ∧ s2.V 0xF = s.V 0xF ∧
      (∀ j, j ≠ x → s2.V j = s.V j) ∧
      (x = 0 → k1 = 5 → k2 = 3 → s2.V 0 = 8) := by
  have c1 := cycle_load keys rnd s x k1 hx hk1 (by omega) m0 m1
  have c2 := cycle_add keys' rnd' { s with V := store s.V x k1, PC := s.PC + 2 } x k2 hx hk2
    (by show s.PC + 2 + 1 < 4096; omega) m2 m3
  have e : ({ s with V := store s.V x k1, PC := s.PC + 2 } : Chip8).V x = k1 := store_same _ _ _
  rw [e, store_store] at c2
  refine ⟨_, _, c1, c2, ?_, store_same _ _ _, ?_, store_other _ _ _ _ (Ne.symm hxF), ?_, ?_⟩
  · show _ = ({ s with V := store s.V x ((k1 + k2) % 256), PC := s.PC + 4 } : Chip8)
    rfl
  · rfl
  · intro j hj
    exact store_other _ _ _ _ hj
  · intro h0 h5 h3
    show store s.V x ((k1 + k2) % 256) 0 = 8
    rw [h0, h5, h3, store_same]

/-- Witness for C11: the program `60 05 70 03` at `0x200` on `addDemo`, where
`VF = 1` before and after. -/
theorem load_then_add_two_cycles_witness :
    ∃ s1 s2, cycle (fun _ => false) 0 addDemo = some s1 ∧
      cycle (fun _ => false) 0 s1 = some s2 ∧
      s2.V 0 = 8 ∧ s2.PC = 0x204 ∧ addDemo.V 0xF = 1 ∧ s2.V 0xF = 1 := by
  obtain ⟨s1, s2, h1, h2, -, -, hpc, hF, -, h8⟩ :=
    load_then_add_two_cycles (fun _ => false) (fun _ => false) 0 0 addDemo 0 5 3
      (by decide) (by decide) (by decide) (by decide) (by decide) rfl rfl rfl rfl
  exact ⟨s1, s2, h1, h2, h8 rfl rfl rfl, hpc, rfl, hF⟩

/-! ## `setPixel` on non-negative coordinates -/

theorem setPixel_nonneg (d : Nat → Nat) (x y : Int) (hx : 0 ≤ x) (hy : 0 ≤ y) :
    setPixel d x y =
      some (decide (d ((y % 32) * 64 + x % 64).toNat = 1),
        store d ((y % 32) * 64 + x % 64).toNat (d ((y % 32) * 64 + x % 64).toNat ^^^ 1)) := by
  have h := setPixel_natCast d x.toNat 0 y.toNat 0
  have ex : ((x.toNat : Nat) : Int) + ((0 : Nat) : Int) = x := by omega
  have ey : ((y.toNat : Nat) : Int) + ((0 : Nat) : Int) = y := by omega
  have ei : (y.toNat + 0) % 32 * 64 + (x.toNat + 0) % 64 = ((y % 32) * 64 + x % 64).toNat := by
    omega
  rw [ex, ey, ei] at h
  exact h

/-- C12: for integers `x ≥ 0`, `y ≥ 0` and a plane with binary cells,
`setPixel` flips the cell at index `(y mod 32) * 64 + (x mod 64)`, leaves every
other cell unchanged and returns true iff that cell was 1; `setPixel` at
(64, 0) is the same as at (0, 0), and at (63, 0) it changes cell 63 and not
cell 0, which is the cell changed at (0, 0). -/
theorem setPixel_toggles_wrapped_cell (display : Nat → Nat) (x y : Int)
    (hx : 0 ≤ x) (hy : 0 ≤ y) (hbin : ∀ i, i < DISPLAY_SIZE → display i ≤ 1) :
    (∃ d', setPixel display x y =
        some (decide (display ((y % 32) * 64 + x % 64).toNat = 1), d') ∧
      ((y % 32) * 64 + x % 64).toNat < DISPLAY_SIZE ∧
      d' ((y % 32) * 64 + x % 64).toNat = 1 - display ((y % 32) * 64 + x % 64).toNat ∧
      ∀ j, j ≠ ((y % 32) * 64 + x % 64).toNat → d' j = display j) ∧
    setPixel display 64 0 = setPixel display 0 0 ∧
    (∃ d0 d63, setPixel display 0 0 = some (decide (display 0 = 1), d0) ∧
      setPixel display 63 0 = some (decide (display 63 = 1), d63) ∧
      d0 0 ≠ display 0 ∧ d0 63 = display 63 ∧ d63 63 ≠ display 63 ∧ d63 0 = display 0) := by
  have hflip : ∀ i, i < DISPLAY_SIZE → display i ^^^ 1 = 1 - display i ∧
      display i ^^^ 1 ≠ display i := by
    intro i hi
    have h01 : display i = 0 ∨ display i = 1 := by
      have := hbin i hi
      omega
    rcases h01 with h | h <;> rw [h] <;> decide
  have hlt : ((y % 32) * 64 + x % 64).toNat < DISPLAY_SIZE := by
    unfold DISPLAY_SIZE
    omega
  have h00 := setPixel_nonneg display 0 0 (le_refl 0) (le_refl 0)
  have h64 := setPixel_nonneg display 64 0 (by decide) (le_refl 0)
  have h63 := setPixel_nonneg display 63 0 (by decide) (le_refl 0)
  have i00 : (((0 : Int) % 32) * 64 + (0 : Int) % 64).toNat = 0 := by decide
  have i64 : (((0 : Int) % 32) * 64 + (64 : Int) % 64).toNat = 0 := by decide
  have i63 : (((0 : Int) % 32) * 64 + (63 : Int) % 64).toNat = 63 := by decide
  rw [i00] at h00
  rw [i64] at h64
  rw [i63] at h63
  refine ⟨⟨_, setPixel_nonneg display x y hx hy, hlt, ?_, ?_⟩, h64.trans h00.symm,
    ⟨_, _, h00, h63, ?_, ?_, ?_, ?_⟩⟩
  · rw [store_same]
    exact (hflip _ hlt).1
  · intro j hj
    exact store_other _ _ _ _ hj
  · rw [store_same]
    exact (hflip 0 (by decide)).2
  · exact store_other _ _ _ _ (by decide)
  · rw [store_same]
    exact (hflip 63 (by decide)).2
  · exact store_other _ _ _ _ (by decide)

/-- Witness for C12: the all-zero plane and the coordinates (70, 33), which
wrap to cell (6, 1). -/
theorem setPixel_toggles_wrapped_cell_witness :
    ∃ d', setPixel (fun _ => 0) 70 33 = some (false, d') ∧ d' 70 = 1 ∧ d' 6 = 0 := by
  obtain ⟨⟨d', h, -, h1, h2⟩, -, -⟩ :=
    setPixel_toggles_wrapped_cell (fun _ => 0) 70 33 (by decide) (by decide)
      (fun _ _ => Nat.zero_le 1)
  have e : (((33 : Int) % 32) * 64 + (70 : Int) % 64).toNat = 70 := by decide
  rw [e] at h1 h2
  exact ⟨d', h, h1, h2 6 (by decide)⟩

/-! ## Decimal digits (`Fx33`) -/

/-- C13: with `Vx = v < 256` and `I + 2 ≤ 4095`, `Fx33` executes and writes
`h`, `t`, `o` to `memory[I]`, `memory[I+1]`, `memory[I+2]` with `h ≤ 2`,
`t ≤ 9`, `o ≤ 9` and `100 h + 10 t + o = v`; every other memory byte, every
register and `I` are unchanged. -/
theorem bcd_digits (keys : Nat → Bool) (rnd : Nat) (s : Chip8) (w : Nat)
    (hop : w &&& 0xF000 = 0xF000) (hlow : w &&& 0x00FF = 0x0033)
    (hv : s.V ((w &&& 0x0F00) >>> 8) < 256) (hI : s.I + 2 ≤ 4095) :
    ∃ s', execute keys rnd s w = some s' ∧
      s'.memory s.I ≤ 2 ∧ s'.memory (s.I + 1) ≤ 9 ∧ s'.memory (s.I + 2) ≤ 9 ∧
      100 * s'.memory s.I + 10 * s'.memory (s.I + 1) + s'.memory (s.I + 2) =
        s.V ((w &&& 0x0F00) >>> 8) ∧
      (∀ a, a ≠ s.I → a ≠ s.I + 1 → a ≠ s.I + 2 → s'.memory a = s.memory a) ∧
      s'.V = s.V ∧ s'.I = s.I := by
  have hlt : s.I + 2 < MEM_SIZE := by unfold MEM_SIZE; omega
  have hex : execute keys rnd s w = some { s with
      memory := store (store (store s.memory s.I (s.V ((w &&& 0x0F00) >>> 8) / 100))
        (s.I + 1) ((s.V ((w &&& 0x0F00) >>> 8) / 10) % 10))
        (s.I + 2) (s.V ((w &&& 0x0F00) >>> 8) % 10) } := by
    simp only [execute, executeF, hop, hlow, hlt]
    norm_num
  have e0 : store (store (store s.memory s.I (s.V ((w &&& 0x0F00) >>> 8) / 100))
        (s.I + 1) ((s.V ((w &&& 0x0F00) >>> 8) / 10) % 10))
        (s.I + 2) (s.V ((w &&& 0x0F00) >>> 8) % 10) s.I =
      s.V ((w &&& 0x0F00) >>> 8) / 100 := by
    rw [store_other _ _ _ _ (by omega), store_other _ _ _ _ (by omega), store_same]
  have e1 : store (store (store s.memory s.I (s.V ((w &&& 0x0F00) >>> 8) / 100))
        (s.I + 1) ((s.V ((w &&& 0x0F00) >>> 8) / 10) % 10))
        (s.I + 2) (s.V ((w &&& 0x0F00) >>> 8) % 10) (s.I + 1) =
      (s.V ((w &&& 0x0F00) >>> 8) / 10) % 10 := by
    rw [store_other _ _ _ _ (by omega), store_same]
  have e2 : store (store (store s.memory s.I (s.V ((w &&& 0x0F00) >>> 8) / 100))
        (s.I + 1) ((s.V ((w &&& 0x0F00) >>> 8) / 10) % 10))
        (s.I + 2) (s.V ((w &&& 0x0F00) >>> 8) % 10) (s.I + 2) =
      s.V ((w &&& 0x0F00) >>> 8) % 10 := store_same _ _ _
  refine ⟨_, hex, ?_, ?_, ?_, ?_, ?_, rfl, rfl⟩
  · show store _ _ _ s.I ≤ 2
    rw [e0]; omega
  · show store _ _ _ (s.I + 1) ≤ 9
    rw [e1]; omega
  · show store _ _ _ (s.I + 2) ≤ 9
    rw [e2]; omega
  · show 100 * store _ _ _ s.I + 10 * store _ _ _ (s.I + 1) + store _ _ _ (s.I + 2) = _
    rw [e0, e1, e2]; omega
  · intro a h0 h1 h2
    show store _ _ _ a = _
    rw [store_other _ _ _ _ h2, store_other _ _ _ _ h1, store_other _ _ _ _ h0]

/-- Witness for C13: `F333` on `bcdDemo`, where `V3 = 157` and `I = 0x400`. -/
theorem bcd_digits_witness :
    ∃ s', execute (fun _ => false) 0 bcdDemo 0xF333 = some s' ∧
      s'.memory 0x400 ≤ 2 ∧ s'.memory 0x401 ≤ 9 ∧ s'.memory 0x402 ≤ 9 ∧
      100 * s'.memory 0x400 + 10 * s'.memory 0x401 + s'.memory 0x402 = 157 := by
  obtain ⟨s', h, a, b, c, d, -⟩ :=
    bcd_digits (fun _ => false) 0 bcdDemo 0xF333 (by decide) (by decide) (by decide)
      (by decide)
  exact ⟨s', h, a, b, c, d⟩

/-! ## Shifts (`8xy6`, `8xyE`) -/

theorem msb_of_byte (a : Nat) (ha : a < 256) : (a &&& 0x80) >>> 7 = a / 128 := by
  have h := Nat.and_two_pow a 7
  have h' : a &&& 0x80 = (a.testBit 7).toNat * 2 ^ 7 := h
  rw [h', Nat.shiftRight_eq_div_pow, Nat.testBit_to_div_mod]
  by_cases hb : a / 2 ^ 7 % 2 = 1
  · simp only [hb, decide_True, Bool.toNat_true]
    omega
  · simp only [hb, decide_False, Bool.toNat_false]
    omega

/-- C14: with `x` other than `0xF` and `Vx = a < 256`, `8xy6` ends with
`VF = a mod 2` and `Vx = a / 2`, and `8xyE` ends with `VF = a / 128` and
`Vx = 2 a mod 256`; the resulting state is written in terms of `x` and `a`
alone, so it is the same for every `y` and every `Vy`, and every register
other than `Vx` and `VF` (thus `Vy` for `y` not in `{x, 0xF}`) is unchanged. -/
theorem shifts_use_vx (keys : Nat → Bool) (rnd : Nat) (s : Chip8) (w : Nat)
    (hop : w &&& 0xF000 = 0x8000) (hx : (w &&& 0x0F00) >>> 8 ≠ 0xF)
    (ha : s.V ((w &&& 0x0F00) >>> 8) < 256) :
    (w &&& 0x000F = 0x0006 →
      ∃ s', execute keys rnd s w = some s' ∧
        s' = { s with
          V := store (store s.V 0xF (s.V ((w &&& 0x0F00) >>> 8) % 2))
            ((w &&& 0x0F00) >>> 8) (s.V ((w &&& 0x0F00) >>> 8) / 2) } ∧
        s'.V 0xF = s.V ((w &&& 0x0F00) >>> 8) % 2 ∧
        s'.V ((w &&& 0x0F00) >>> 8) = s.V ((w &&& 0x0F00) >>> 8) / 2 ∧
        ∀ j, j ≠ (w &&& 0x0F00) >>> 8 → j ≠ 0xF → s'.V j = s.V j) ∧
    (w &&& 0x000F = 0x000E →
      ∃ s', execute keys rnd s w = some s' ∧
        s' = { s with
          V := store (store s.V 0xF (s.V ((w &&& 0x0F00) >>> 8) / 128))
            ((w &&& 0x0F00) >>> 8) ((2 * s.V ((w &&& 0x0F00) >>> 8)) % 256) } ∧
        s'.V 0xF = s.V ((w &&& 0x0F00) >>> 8) / 128 ∧
        s'.V ((w &&& 0x0F00) >>> 8) = (2 * s.V ((w &&& 0x0F00) >>> 8)) % 256 ∧
        ∀ j, j ≠ (w &&& 0x0F00) >>> 8 → j ≠ 0xF → s'.V j = s.V j) := by
  constructor
  · intro hlow
    have e1 : s.V ((w &&& 0x0F00) >>> 8) &&& 0x1 = s.V ((w &&& 0x0F00) >>> 8) % 2 :=
      Nat.and_one_is_mod _
    have e2 : store s.V 0xF (s.V ((w &&& 0x0F00) >>> 8) % 2) ((w &&& 0x0F00) >>> 8) >>> 1 =
        s.V ((w &&& 0x0F00) >>> 8) / 2 := by
      rw [store_other _ _ _ _ hx, Nat.shiftRight_eq_div_pow]
    have hex : execute keys rnd s w = some { s with
        V := store (store s.V 0xF (s.V ((w &&& 0x0F00) >>> 8) % 2))
          ((w &&& 0x0F00) >>> 8) (s.V ((w &&& 0x0F00) >>> 8) / 2) } := by
      simp only [execute, execute8, hop, hlow, e1, e2]
      norm_num
    refine ⟨_, hex, rfl, ?_, ?_, ?_⟩
    · show store _ _ _ 0xF = _
      rw [store_other _ _ _ _ (Ne.symm hx), store_same]
    · show store _ _ _ _ = _
      rw [store_same]
    · intro j hj hF
      show store _ _ _ j = _
      rw [store_other _ _ _ _ hj, store_other _ _ _ _ hF]
  · intro hlow
    have e1 : (s.V ((w &&& 0x0F00) >>> 8) &&& 0x80) >>> 7 = s.V ((w &&& 0x0F00) >>> 8) / 128 :=
      msb_of_byte _ ha
    have e2 : (store s.V 0xF (s.V ((w &&& 0x0F00) >>> 8) / 128) ((w &&& 0x0F00) >>> 8) <<< 1)
        % 256 = (2 * s.V ((w &&& 0x0F00) >>> 8)) % 256 := by
      rw [store_other _ _ _ _ hx, Nat.shiftLeft_eq, Nat.mul_comm]
    have hex : execute keys rnd s w = some { s with
        V := store (store s.V 0xF (s.V ((w &&& 0x0F00) >>> 8) / 128))
          ((w &&& 0x0F00) >>> 8) ((2 * s.V ((w &&& 0x0F00) >>> 8)) % 256) } := by
      simp only [execute, execute8, hop, hlow, e1, e2]
      norm_num
    refine ⟨_, hex, rfl, ?_, ?_, ?_⟩
    · show store _ _ _ 0xF = _
      rw [store_other _ _ _ _ (Ne.symm hx), store_same]
    · show store _ _ _ _ = _
      rw [store_same]
    · intro j hj hF
      show store _ _ _ j = _
      rw [store_other _ _ _ _ hj, store_other _ _ _ _ hF]

/-- Witness for C14: `8306` and `830E` on `bcdDemo`, where `V3 = 157`. -/
theorem shifts_use_vx_witness :
    (∃ s', execute (fun _ => false) 0 bcdDemo 0x8306 = some s' ∧
      s'.V 0xF = 1 ∧ s'.V 3 = 78) ∧
    (∃ s', execute (fun _ => false) 0 bcdDemo 0x830E = some s' ∧
      s'.V 0xF = 1 ∧ s'.V 3 = 58) := by
  obtain ⟨h6, hE⟩ := shifts_use_vx (fun _ => false) 0 bcdDemo 0x8306 (by decide) (by decide)
    (by decide)
  obtain ⟨h6', hE'⟩ := shifts_use_vx (fun _ => false) 0 bcdDemo 0x830E (by decide) (by decide)
    (by decide)
  obtain ⟨s1, a1, -, b1, c1, -⟩ := h6 (by decide)
  obtain ⟨s2, a2, -, b2, c2, -⟩ := hE' (by decide)
  exact ⟨⟨s1, a1, b1, c1⟩, ⟨s2, a2, b2, c2⟩⟩

/-! ## Timer update -/

theorem timerUpdate_iterate (n : Nat) :
    ∀ s : Chip8, (Nat.iterate timerUpdate n s).DT = s.DT - n ∧
      (Nat.iterate timerUpdate n s).ST = s.ST - n := by
  induction n with
  | zero => intro s; exact ⟨rfl, rfl⟩
  | succ k ih =>
    intro s
    rw [Function.iterate_succ_apply]
    obtain ⟨h1, h2⟩ := ih (timerUpdate s)
    rw [h1, h2]
    simp only [timerUpdate]
    constructor <;> split_ifs <;> omega

/-- C15: one timer update takes `DT` to `DT - 1` if `DT > 0` and to 0 otherwise,
`ST` likewise and independently, and changes nothing else; `n` consecutive
updates take `DT` to `max (DT - n) 0` and `ST` to `max (ST - n) 0`, and a timer
at 0 stays at 0. -/
theorem timer_update_floors_at_zero (s : Chip8) (n : Nat) :
    (timerUpdate s).DT = (if s.DT > 0 then s.DT - 1 else 0) ∧
    (timerUpdate s).ST = (if s.ST > 0 then s.ST - 1 else 0) ∧
    timerUpdate s = { s with DT := (timerUpdate s).DT, ST := (timerUpdate s).ST } ∧
    (((Nat.iterate timerUpdate n s).DT : Nat) : Int) = max ((s.DT : Int) - (n : Int)) 0 ∧
    (((Nat.iterate timerUpdate n s).ST : Nat) : Int) = max ((s.ST : Int) - (n : Int)) 0 ∧
    (s.DT = 0 → (timerUpdate s).DT = 0) ∧ (s.ST = 0 → (timerUpdate s).ST = 0) := by
  obtain ⟨h1, h2⟩ := timerUpdate_iterate n s
  refine ⟨?_, ?_, rfl, ?_, ?_, ?_, ?_⟩
  · simp only [timerUpdate]
    split_ifs <;> omega
  · simp only [timerUpdate]
    split_ifs <;> omega
  · rw [h1]
    omega
  · rw [h2]
    omega
  · intro h
    simp only [timerUpdate, h]
    rfl
  · intro h
    simp only [timerUpdate, h]
    rfl

/-! ## Timers and pixel plane under the instruction switch -/

theorem elim_ite_cases {α : Type} (c : Prop) [Decidable c] (a b : Option α) (P : α → Prop)
    (ha : c → a.elim True P) (hb : ¬ c → b.elim True P) :
    (if c then a else b).elim True P := by
  split
  · exact ha ‹_›
  · exact hb ‹_›

theorem elim_mono {α : Type} {o : Option α} {P Q : α → Prop} (h : o.elim True P)
    (hPQ : ∀ a, P a → Q a) : o.elim True Q := by
  cases o with
  | none => trivial
  | some a => exact hPQ a h

theorem forLoop_preserves {σ : Type} (body : Nat → σ → Option σ) (P : σ → Prop)
    (hstep : ∀ i st st', body i st = some st' → P st → P st') (n : Nat) :
    ∀ init st, P init → forLoop body init n = some st → P st := by
  induction n with
  | zero =>
    intro init st h0 h
    cases h
    exact h0
  | succ k ih =>
    intro init st h0 h
    rw [forLoop] at h
    cases hk : forLoop body init k with
    | none => rw [hk] at h; cases h
    | some mid =>
      rw [hk, Option.some_bind] at h
      exact hstep k mid st h (ih init mid h0 hk)

theorem execute0_timers (s : Chip8) (w : Nat) :
    (execute0 s w).elim True (fun t => t.DT = s.DT ∧ t.ST = s.ST) := by
  unfold execute0
  by_cases h1 : w &&& 0x00FF = 0x00E0
  · rw [if_pos h1]
    exact elim_some _ _ ⟨rfl, rfl⟩
  rw [if_neg h1]
  by_cases h2 : w &&& 0x00FF = 0x00EE
  · rw [if_pos h2]
    generalize (s.sp + 65535) % 65536 = k
    dsimp only
    apply elim_ite
    · exact elim_some _ _ ⟨rfl, rfl⟩
    · exact elim_none _
  rw [if_neg h2]
  exact elim_some _ _ ⟨rfl, rfl⟩

theorem execute0_display (s : Chip8) (w : Nat) (h : w &&& 0x00FF ≠ 0x00E0) :
    (execute0 s w).elim True (fun t => t.display = s.display) := by
  unfold execute0
  rw [if_neg h]
  by_cases h2 : w &&& 0x00FF = 0x00EE
  · rw [if_pos h2]
    generalize (s.sp + 65535) % 65536 = k
    dsimp only
    apply elim_ite
    · exact elim_some _ _ rfl
    · exact elim_none _
  rw [if_neg h2]
  exact elim_some _ _ rfl

theorem execute8_frame (s : Chip8) (w : Nat) :
    (execute8 s w).elim True
      (fun t => t.DT = s.DT ∧ t.ST = s.ST ∧ t.display = s.display) := by
  unfold execute8
  dsimp only
  repeat' (with_reducible apply elim_ite)
  all_goals exact elim_some _ _ ⟨rfl, rfl, rfl⟩

theorem executeD_timers (s : Chip8) (w : Nat) :
    (executeD s w).elim True (fun t => t.DT = s.DT ∧ t.ST = s.ST) := by
  unfold executeD
  dsimp only
  split
  · exact elim_none _
  · exact elim_some _ _ ⟨rfl, rfl⟩

theorem executeE_frame (keys : Nat → Bool) (s : Chip8) (w : Nat) :
    (executeE keys s w).elim True
      (fun t => t.DT = s.DT ∧ t.ST = s.ST ∧ t.display = s.display) := by
  unfold executeE
  dsimp only
  repeat' (with_reducible apply elim_ite)
  all_goals first | exact elim_none _ | exact elim_some _ _ ⟨rfl, rfl, rfl⟩

theorem executeF_display (keys : Nat → Bool) (s : Chip8) (w : Nat) :
    (executeF keys s w).elim True (fun t => t.display = s.display) := by
  unfold executeF
  dsimp only
  repeat' (with_reducible apply elim_ite)
  all_goals first | exact elim_none _ | exact elim_some _ _ rfl | skip
  all_goals split
  all_goals first | exact elim_none _ | exact elim_some _ _ rfl

theorem executeF_DT (keys : Nat → Bool) (s : Chip8) (w : Nat) (h : w &&& 0x00FF ≠ 0x0015) :
    (executeF keys s w).elim True (fun t => t.DT = s.DT) := by
  unfold executeF
  dsimp only
  repeat' (first | with_reducible apply elim_ite_cases | intro _)
  all_goals first | exact elim_none _ | exact elim_some _ _ rfl | contradiction | skip
  all_goals split
  all_goals first | exact elim_none _ | exact elim_some _ _ rfl

theorem executeF_ST (keys : Nat → Bool) (s : Chip8) (w : Nat) (h : w &&& 0x00FF ≠ 0x0018) :
    (executeF keys s w).elim True (fun t => t.ST = s.ST) := by
  unfold executeF
  dsimp only
  repeat' (first | with_reducible apply elim_ite_cases | intro _)
  all_goals first | exact elim_none _ | exact elim_some _ _ rfl | contradiction | skip
  all_goals split
  all_goals first | exact elim_none _ | exact elim_some _ _ rfl

theorem execute_DT (keys : Nat → Bool) (rnd : Nat) (s : Chip8) (w : Nat)
    (h : ¬ (w &&& 0xF000 = 0xF000 ∧ w &&& 0x00FF = 0x0015)) :
    (execute keys rnd s w).elim True (fun t => t.DT = s.DT) := by
  unfold execute
  dsimp only
  repeat' (first | with_reducible apply elim_ite_cases | intro _)
  all_goals first
    | exact elim_none _
    | exact elim_some _ _ rfl
    | exact elim_mono (execute0_timers s w) (fun _ hh => hh.1)
    | exact elim_mono (execute8_frame s w) (fun _ hh => hh.1)
    | exact elim_mono (executeD_timers s w) (fun _ hh => hh.1)
    | exact elim_mono (executeE_frame keys s w) (fun _ hh => hh.1)
    | exact executeF_DT keys s w (fun hl => h ⟨by assumption, hl⟩)

theorem execute_ST (keys : Nat → Bool) (rnd : Nat) (s : Chip8) (w : Nat)
    (h : ¬ (w &&& 0xF000 = 0xF000 ∧ w &&& 0x00FF = 0x0018)) :
    (execute keys rnd s w).elim True (fun t => t.ST = s.ST) := by
  unfold execute
  dsimp only
  repeat' (first | with_reducible apply elim_ite_cases | intro _)
  all_goals first
    | exact elim_none _
    | exact elim_some _ _ rfl
    | exact elim_mono (execute0_timers s w) (fun _ hh => hh.2)
    | exact elim_mono (execute8_frame s w) (fun _ hh => hh.2.1)
    | exact elim_mono (executeD_timers s w) (fun _ hh => hh.2)
    | exact elim_mono (executeE_frame keys s w) (fun _ hh => hh.2.1)
    | exact executeF_ST keys s w (fun hl => h ⟨by assumption, hl⟩)

theorem execute_display (keys : Nat → Bool) (rnd : Nat) (s : Chip8) (w : Nat)
    (hD : w &&& 0xF000 ≠ 0xD000)
    (h0 : ¬ (w &&& 0xF000 = 0x0000 ∧ w &&& 0x00FF = 0x00E0)) :
    (execute keys rnd s w).elim True (fun t => t.display = s.display) := by
  unfold execute
  dsimp only
  repeat' (first | with_reducible apply elim_ite_cases | intro _)
  all_goals first
    | exact elim_none _
    | exact elim_some _ _ rfl
    | exact execute0_display s w (fun hl => h0 ⟨by assumption, hl⟩)
    | exact elim_mono (execute8_frame s w) (fun _ hh => hh.2.2)
    | exact elim_mono (executeE_frame keys s w) (fun _ hh => hh.2.2)
    | exact executeF_display keys s w
    | contradiction

theorem execute_timer_set (keys : Nat → Bool) (rnd : Nat) (s : Chip8) (w : Nat)
    (hop : w &&& 0xF000 = 0xF000) :
    (w &&& 0x00FF = 0x0015 →
      execute keys rnd s w = some { s with DT := s.V ((w &&& 0x0F00) >>> 8) }) ∧
    (w &&& 0x00FF = 0x0018 →
      execute keys rnd s w = some { s with ST := s.V ((w &&& 0x0F00) >>> 8) }) := by
  constructor
  · intro hlow
    simp only [execute, executeF, hop, hlow]
    norm_num
  · intro hlow
    simp only [execute, executeF, hop, hlow]
    norm_num

theorem executeAt_DT (keys : Nat → Bool) (rnd : Nat) (s s' : Chip8) (w : Nat)
    (h : ¬ (w &&& 0xF000 = 0xF000 ∧ w &&& 0x00FF = 0x0015))
    (hex : executeAt keys rnd s w = some s') : s'.DT = s.DT :=
  of_elim (execute_DT keys rnd { s with PC := (s.PC + 2) % 65536 } w h) s' hex

theorem executeAt_ST (keys : Nat → Bool) (rnd : Nat) (s s' : Chip8) (w : Nat)
    (h : ¬ (w &&& 0xF000 = 0xF000 ∧ w &&& 0x00FF = 0x0018))
    (hex : executeAt keys rnd s w = some s') : s'.ST = s.ST :=
  of_elim (execute_ST keys rnd { s with PC := (s.PC + 2) % 65536 } w h) s' hex

theorem executeWords_DT (ws : List ((Nat → Bool) × Nat × Nat)) :
    ∀ s s' : Chip8,
      (∀ e ∈ ws, ¬ (e.2.2 &&& 0xF000 = 0xF000 ∧ e.2.2 &&& 0x00FF = 0x0015)) →
      executeWords ws s = some s' → s'.DT = s.DT := by
  induction ws with
  | nil =>
    intro s s' _ h
    cases h
    rfl
  | cons e rest ih =>
    intro s s' hall h
    rw [executeWords] at h
    cases h1 : executeAt e.1 e.2.1 s e.2.2 with
    | none => rw [h1] at h; cases h
    | some mid =>
      rw [h1, Option.some_bind] at h
      rw [ih mid s' (fun e' he' => hall e' (List.mem_cons_of_mem _ he')) h]
      exact executeAt_DT e.1 e.2.1 s mid e.2.2 (hall e (List.mem_cons_self _ _)) h1

theorem executeWords_ST (ws : List ((Nat → Bool) × Nat × Nat)) :
    ∀ s s' : Chip8,
      (∀ e ∈ ws, ¬ (e.2.2 &&& 0xF000 = 0xF000 ∧ e.2.2 &&& 0x00FF = 0x0018)) →
      executeWords ws s = some s' → s'.ST = s.ST := by
  induction ws with
  | nil =>
    intro s s' _ h
    cases h
    rfl
  | cons e rest ih =>
    intro s s' hall h
    rw [executeWords] at h
    cases h1 : executeAt e.1 e.2.1 s e.2.2 with
    | none => rw [h1] at h; cases h
    | some mid =>
      rw [h1, Option.some_bind] at h
      rw [ih mid s' (fun e' he' => hall e' (List.mem_cons_of_mem _ he')) h]
      exact executeAt_ST e.1 e.2.1 s mid e.2.2 (hall e (List.mem_cons_self _ _)) h1

/-- C16: executing an instruction leaves `DT` unchanged unless the instruction
is `Fx15`, which sets `DT = Vx`, and leaves `ST` unchanged unless it is `Fx18`,
which sets `ST = Vx`; hence a sequence of instructions without `Fx15` (without
`Fx18`) ends with `DT` (`ST`) as it was at the start. -/
theorem timers_written_only_by_Fx15_Fx18 (keys : Nat → Bool) (rnd : Nat) (s : Chip8)
    (w : Nat) :
    (¬ (w &&& 0xF000 = 0xF000 ∧ w &&& 0x00FF = 0x0015) →
      ∀ s', execute keys rnd s w = some s' → s'.DT = s.DT) ∧
    (w &&& 0xF000 = 0xF000 → w &&& 0x00FF = 0x0015 →
      execute keys rnd s w = some { s with DT := s.V ((w &&& 0x0F00) >>> 8) }) ∧
    (¬ (w &&& 0xF000 = 0xF000 ∧ w &&& 0x00FF = 0x0018) →
      ∀ s', execute keys rnd s w = some s' → s'.ST = s.ST) ∧
    (w &&& 0xF000 = 0xF000 → w &&& 0x00FF = 0x0018 →
      execute keys rnd s w = some { s with ST := s.V ((w &&& 0x0F00) >>> 8) }) ∧
    (∀ (ws : List ((Nat → Bool) × Nat × Nat)) (s' : Chip8),
      (∀ e ∈ ws, ¬ (e.2.2 &&& 0xF000 = 0xF000 ∧ e.2.2 &&& 0x00FF = 0x0015)) →
      executeWords ws s = some s' → s'.DT = s.DT) ∧
    (∀ (ws : List ((Nat → Bool) × Nat × Nat)) (s' : Chip8),
      (∀ e ∈ ws, ¬ (e.2.2 &&& 0xF000 = 0xF000 ∧ e.2.2 &&& 0x00FF = 0x0018)) →
      executeWords ws s = some s' → s'.ST = s.ST) :=
  ⟨fun h => of_elim (execute_DT keys rnd s w h),
   fun hop hlow => (execute_timer_set keys rnd s w hop).1 hlow,
   fun h => of_elim (execute_ST keys rnd s w h),
   fun hop hlow => (execute_timer_set keys rnd s w hop).2 hlow,
   fun ws s' => executeWords_DT ws s s',
   fun ws s' => executeWords_ST ws s s'⟩

/-- Witness for C16: on `bcdDemo` (`DT = 2`, `V3 = 157`) the words `6005`,
`7003`, `F318` leave `DT = 2`, and `F315` sets `DT = 157`. -/
theorem timers_written_only_by_Fx15_Fx18_witness :
    bcdDemo.DT = 2 ∧
    (∃ s', executeWords [(fun _ => false, 0, 0x6005), (fun _ => false, 0, 0x7003),
        (fun _ => false, 0, 0xF318)] bcdDemo = some s' ∧ s'.DT = 2 ∧ s'.ST = 157) ∧
    (∃ s', execute (fun _ => false) 0 bcdDemo 0xF315 = some s' ∧ s'.DT = 157) := by
  obtain ⟨-, h15, -, -, hws, -⟩ :=
    timers_written_only_by_Fx15_Fx18 (fun _ => false) 0 bcdDemo 0xF315
  refine ⟨rfl, ⟨_, rfl, ?_, rfl⟩, ⟨_, h15 (by decide) (by decide), rfl⟩⟩
  exact hws [(fun _ => false, 0, 0x6005), (fun _ => false, 0, 0x7003),
    (fun _ => false, 0, 0xF318)] _ (by decide) rfl

/-! ## Timer cadence -/

theorem timerSchedule_bound (perMs t0 : Nat) (hper : 0 < perMs) (ts : List Nat) :
    ∀ (st : Chip8 × Nat) (k : Nat),
      (∀ t ∈ ts, t ≤ t0 + 16 * perMs * 10) → st.2 ≤ t0 + 16 * perMs * 10 →
      t0 + 16 * perMs * k ≤ st.2 → st.1.DT + k = 255 →
      ∃ k', k' ≤ 10 ∧ (timerSchedule perMs ts st).1.DT + k' = 255 := by
  induction ts with
  | nil =>
    intro st k _ hB hk hDT
    refine ⟨k, ?_, hDT⟩
    have h : 16 * perMs * k ≤ 16 * perMs * 10 := by omega
    exact Nat.le_of_mul_le_mul_left h (by omega)
  | cons now rest ih =>
    intro st k hall hB hk hDT
    have hnow : now ≤ t0 + 16 * perMs * 10 := hall now (List.mem_cons_self _ _)
    have hrest : ∀ t ∈ rest, t ≤ t0 + 16 * perMs * 10 :=
      fun t ht => hall t (List.mem_cons_of_mem _ ht)
    show ∃ k', k' ≤ 10 ∧ (timerSchedule perMs rest (timerPhase perMs st now)).1.DT + k' = 255
    unfold timerPhase
    by_cases htick : (now - st.2) / perMs ≥ 16
    · rw [if_pos htick]
      have h16 : 16 * perMs ≤ now - st.2 := (Nat.le_div_iff_mul_le hper).1 htick
      have hmul : 16 * perMs * (k + 1) = 16 * perMs * k + 16 * perMs := Nat.mul_succ _ _
      have hk1 : t0 + 16 * perMs * (k + 1) ≤ now := by omega
      have hle : 16 * perMs * (k + 1) ≤ 16 * perMs * 10 := by omega
      have hk10 : k + 1 ≤ 10 := Nat.le_of_mul_le_mul_left hle (by omega)
      apply ih (timerUpdate st.1, now) (k + 1) hrest hnow hk1
      show (if st.1.DT > 0 then st.1.DT - 1 else st.1.DT) + (k + 1) = 255
      have hpos : st.1.DT > 0 := by omega
      rw [if_pos hpos]
      omega
    · rw [if_neg htick]
      exact ih st k hrest hB hk hDT

/-- C17 as stated fails: with `DT = 255`, `lastTimerUpdate = 0` and outer-loop
iterations at 20, 40, ..., 160 ms the scheduler ticks once per iteration and
decrements `DT` by 8, not by `160 / 16 = 10`. -/
theorem cadence_depends_on_iteration_times :
    timerDemo.DT = 255 ∧
    (timerSchedule 1 [20, 40, 60, 80, 100, 120, 140, 160] (timerDemo, 0)).1.DT = 247 ∧
    255 - 247 ≠ 160 / 16 := by
  refine ⟨rfl, rfl, by decide⟩

theorem timerSchedule_on_boundaries (perMs t0 : Nat) (hper : 0 < perMs) (ts : List Nat) :
    ∀ (st : Chip8 × Nat) (k : Nat), k ≤ 10 → st.2 = t0 + 16 * perMs * k →
      st.1.DT + k = 255 → ts.Pairwise (fun a b => a ≤ b) →
      (∀ t ∈ ts, t ≤ t0 + 16 * perMs * 10) →
      (∀ j, k < j → j ≤ 10 → t0 + 16 * perMs * j ∈ ts) →
      (timerSchedule perMs ts st).1.DT + 10 = 255 := by
  induction ts with
  | nil =>
    intro st k hk _ hDT _ _ hbd
    have hk10 : k = 10 := by
      by_contra hne
      exact absurd (hbd (k + 1) (by omega) (by omega)) (List.not_mem_nil _)
    rw [hk10] at hDT
    exact hDT
  | cons now rest ih =>
    intro st k hk hlast hDT hsorted hB hbd
    obtain ⟨hhead, hrestSorted⟩ := List.pairwise_cons.1 hsorted
    have hnow : now ≤ t0 + 16 * perMs * 10 := hB now (List.mem_cons_self _ _)
    have hrestB : ∀ t ∈ rest, t ≤ t0 + 16 * perMs * 10 :=
      fun t ht => hB t (List.mem_cons_of_mem _ ht)
    have hsucc : 16 * perMs * (k + 1) = 16 * perMs * k + 16 * perMs := Nat.mul_succ _ _
    have hmono : ∀ j, k < j → 16 * perMs * (k + 1) ≤ 16 * perMs * j :=
      fun j hj => Nat.mul_le_mul_left _ hj
    show (timerSchedule perMs rest (timerPhase perMs st now)).1.DT + 10 = 255
    unfold timerPhase
    by_cases htick : (now - st.2) / perMs ≥ 16
    · rw [if_pos htick]
      have h16 : 16 * perMs ≤ now - st.2 := (Nat.le_div_iff_mul_le hper).1 htick
      have hk9 : k < 10 := by
        by_contra hge
        have hk10 : k = 10 := by omega
        rw [hk10] at hlast
        omega
      have hnext : now = t0 + 16 * perMs * (k + 1) := by
        rcases List.mem_cons.1 (hbd (k + 1) (by omega) (by omega)) with h | h
        · exact h.symm
        · have := hhead _ h
          omega
      apply ih (timerUpdate st.1, now) (k + 1) (by omega) hnext _ hrestSorted hrestB
      · intro j hj hj10
        rcases List.mem_cons.1 (hbd j (by omega) hj10) with h | h
        · have h1 := hmono j (by omega)
          have h2 : 16 * perMs * (k + 1 + 1) ≤ 16 * perMs * j := Nat.mul_le_mul_left _ hj
          have h3 : 16 * perMs * (k + 1 + 1) = 16 * perMs * (k + 1) + 16 * perMs :=
            Nat.mul_succ _ _
          omega
        · exact h
      · show (if st.1.DT > 0 then st.1.DT - 1 else st.1.DT) + (k + 1) = 255
        have hpos : st.1.DT > 0 := by omega
        rw [if_pos hpos]
        omega
    · rw [if_neg htick]
      have hlt : now - st.2 < 16 * perMs :=
        (Nat.div_lt_iff_lt_mul hper).1 (by omega)
      apply ih st k hk hlast hDT hrestSorted hrestB
      intro j hj hj10
      rcases List.mem_cons.1 (hbd j hj hj10) with h | h
      · have h1 := hmono j hj
        omega
      · exact h

theorem timerSchedule_spaced (perMs t0 : Nat) (hper : 0 < perMs) (ts : List Nat) :
    ∀ (st : Chip8 × Nat) (k : Nat), st.1.DT + k = 255 → t0 + 16 * perMs * k ≤ st.2 →
      List.Chain (fun a b => a + 16 * perMs ≤ b) st.2 ts →
      (∀ t ∈ ts, t ≤ t0 + 16 * perMs * 10) →
      (timerSchedule perMs ts st).1.DT + (k + ts.length) = 255 := by
  induction ts with
  | nil =>
    intro st k hDT _ _ _
    exact hDT
  | cons now rest ih =>
    intro st k hDT hk hchain hB
    obtain ⟨hstep, hrest⟩ := List.chain_cons.1 hchain
    have hnow : now ≤ t0 + 16 * perMs * 10 := hB now (List.mem_cons_self _ _)
    have htick : (now - st.2) / perMs ≥ 16 :=
      (Nat.le_div_iff_mul_le hper).2 (by omega)
    have hsucc : 16 * perMs * (k + 1) = 16 * perMs * k + 16 * perMs := Nat.mul_succ _ _
    have hle : 16 * perMs * (k + 1) ≤ 16 * perMs * 10 := by omega
    have hk10 : k + 1 ≤ 10 := Nat.le_of_mul_le_mul_left hle (by omega)
    show (timerSchedule perMs rest (timerPhase perMs st now)).1.DT +
      (k + (rest.length + 1)) = 255
    unfold timerPhase
    rw [if_pos htick]
    have := ih (timerUpdate st.1, now) (k + 1)
      (by
        show (if st.1.DT > 0 then st.1.DT - 1 else st.1.DT) + (k + 1) = 255
        have hpos : st.1.DT > 0 := by omega
        rw [if_pos hpos]
        omega)
      (by show t0 + 16 * perMs * (k + 1) ≤ now; omega) hrest
      (fun t ht => hB t (List.mem_cons_of_mem _ ht))
    omega

/-- C17, amended: with `DT = 255` and no instruction writing `DT`, over
outer-loop iterations whose time points lie within 160 ms of the last timer
update `t0` the scheduler decrements `DT` by at most `160 / 16 = 10`; it
decrements by exactly 10 when the non-decreasing time points include every
16 ms boundary `t0 + 16 k` ms, `k = 1..10`, whatever the clock resolution.
When consecutive iterations are at least 16 ms apart, every iteration ticks. -/
theorem cadence_at_most_ten_ticks (perMs t0 : Nat) (hper : 0 < perMs) (s : Chip8)
    (ts : List Nat) (hDT : s.DT = 255) (hspan : ∀ t ∈ ts, t ≤ t0 + 160 * perMs) :
    255 - 160 / 16 ≤ (timerSchedule perMs ts (s, t0)).1.DT ∧
    (timerSchedule perMs ts (s, t0)).1.DT ≤ 255 ∧
    (ts.Pairwise (fun a b => a ≤ b) →
      (∀ k, 1 ≤ k → k ≤ 10 → t0 + 16 * perMs * k ∈ ts) →
      (timerSchedule perMs ts (s, t0)).1.DT = 255 - 160 / 16) ∧
    (List.Chain (fun a b => a + 16 * perMs ≤ b) t0 ts →
      (timerSchedule perMs ts (s, t0)).1.DT + ts.length = 255) := by
  have hB : ∀ t ∈ ts, t ≤ t0 + 16 * perMs * 10 := by
    intro t ht
    have := hspan t ht
    omega
  have h10 : 160 / 16 = 10 := by decide
  obtain ⟨k, hk, hsum⟩ := timerSchedule_bound perMs t0 hper ts (s, t0) 0 hB
    (by show t0 ≤ t0 + 16 * perMs * 10; omega) (by show t0 + 16 * perMs * 0 ≤ t0; omega)
    (by show s.DT + 0 = 255; omega)
  refine ⟨by omega, by omega, ?_, ?_⟩
  · intro hsorted hbd
    have := timerSchedule_on_boundaries perMs t0 hper ts (s, t0) 0 (by decide)
      (by show t0 = t0 + 16 * perMs * 0; omega) (by show s.DT + 0 = 255; omega) hsorted hB
      (fun j hj hj10 => hbd j hj hj10)
    omega
  · intro hchain
    have := timerSchedule_spaced perMs t0 hper ts (s, t0) 0 (by show s.DT + 0 = 255; omega)
      (by show t0 + 16 * perMs * 0 ≤ t0; omega) hchain hB
    omega

/-- Witness for C17 (amended), on `timerDemo` with a microsecond clock
(`perMs = 1000`) and `lastTimerUpdate = 5000`: time points on every 16 ms
boundary, with two more in between, give ten ticks; iterations every 17 ms up
to 153 ms after the last update give nine. -/
theorem cadence_at_most_ten_ticks_witness :
    timerDemo.DT = 255 ∧
    (timerSchedule 1000 [21000, 25000, 37000, 53000, 69000, 85000, 101000, 116999, 117000,
      133000, 149000, 165000] (timerDemo, 5000)).1.DT = 255 - 160 / 16 ∧
    (timerSchedule 1000 [22000, 39000, 56000, 73000, 90000, 107000, 124000, 141000, 158000]
      (timerDemo, 5000)).1.DT + 9 = 255 := by
  obtain ⟨-, -, hexact, -⟩ := cadence_at_most_ten_ticks 1000 5000 (by decide) timerDemo
    [21000, 25000, 37000, 53000, 69000, 85000, 101000, 116999, 117000, 133000, 149000, 165000]
    rfl (by decide)
  obtain ⟨-, -, -, hspaced⟩ := cadence_at_most_ten_ticks 1000 5000 (by decide) timerDemo
    [22000, 39000, 56000, 73000, 90000, 107000, 124000, 141000, 158000] rfl (by decide)
  refine ⟨rfl, hexact (by decide) ?_, hspaced (by simp)⟩
  intro k h1 h10
  interval_cases k <;> decide

/-! ## Initial memory image -/

theorem loadRom_loop (buffer : List Nat) (n : Nat) (hn : 0x200 + n ≤ 4096) :
    ∃ m, forLoop (loadRomByte buffer) (fun _ => 0) n = some m ∧
      (∀ i, i < n → m (0x200 + i) = buffer.getD i 0) ∧
      ∀ a, (a < 0x200 ∨ 0x200 + n ≤ a) → m a = 0 := by
  refine forLoop_invariant (loadRomByte buffer) (fun _ => 0)
    (fun (k : Nat) (m : Nat → Nat) =>
      (∀ i, i < k → m (0x200 + i) = buffer.getD i 0) ∧
      ∀ a, (a < 0x200 ∨ 0x200 + k ≤ a) → m a = 0) n ?_ ?_
  · exact ⟨fun i hi => absurd hi (Nat.not_lt_zero i), fun _ _ => rfl⟩
  · rintro k m hk ⟨h1, h2⟩
    have hlt : 0x200 + k < MEM_SIZE := by unfold MEM_SIZE; omega
    refine ⟨store m (0x200 + k) (buffer.getD k 0), by simp only [loadRomByte, hlt, if_true],
      ?_, ?_⟩
    · intro i hi
      by_cases hik : i = k
      · rw [hik, store_same]
      · rw [store_other _ _ _ _ (by omega)]
        exact h1 i (by omega)
    · intro a ha
      rw [store_other _ _ _ _ (by omega)]
      exact h2 a (by omega)

theorem loadFont_loop (m0 : Nat → Nat) (n : Nat) (hn : n ≤ 80) :
    ∃ m, forLoop loadFontByte m0 n = some m ∧
      (∀ i, i < n → m (0x50 + i) = chip8_fontset.getD i 0) ∧
      ∀ a, (a < 0x50 ∨ 0x50 + n ≤ a) → m a = m0 a := by
  refine forLoop_invariant loadFontByte m0
    (fun (k : Nat) (m : Nat → Nat) =>
      (∀ i, i < k → m (0x50 + i) = chip8_fontset.getD i 0) ∧
      ∀ a, (a < 0x50 ∨ 0x50 + k ≤ a) → m a = m0 a) n ?_ ?_
  · exact ⟨fun i hi => absurd hi (Nat.not_lt_zero i), fun _ _ => rfl⟩
  · rintro k m hk ⟨h1, h2⟩
    have hlt : 0x50 + k < MEM_SIZE := by unfold MEM_SIZE; omega
    refine ⟨store m (0x50 + k) (chip8_fontset.getD k 0), by simp only [loadFontByte, hlt, if_true],
      ?_, ?_⟩
    · intro i hi
      by_cases hik : i = k
      · rw [hik, store_same]
      · rw [store_other _ _ _ _ (by omega)]
        exact h1 i (by omega)
    · intro a ha
      rw [store_other _ _ _ _ (by omega)]
      exact h2 a (by omega)

/-- C18: for a ROM of length `L ≤ 4096 - 512`, initialisation succeeds with
`memory[0x200 + i] = rom[i]` for `i < L`, `memory[0x50 + 5 d + r]` equal to row
`r` of the glyph of digit `d` (`d < 16`, `r < 5`), every other byte of the
4096-byte address space 0 and `PC = 0x200`; `Fx29` computes `I = 0x50 + Vx * 5`,
the address of the glyph of digit `Vx`. -/
theorem initial_memory_image (V : Nat → Nat) (I : Nat) (stack : Nat → Nat)
    (rom : List Nat) (hL : rom.length ≤ 4096 - 512) :
    ∃ s0, initialState V I stack rom = some s0 ∧
      (∀ i, i < rom.length → s0.memory (0x200 + i) = rom.getD i 0) ∧
      (∀ d r, d < 16 → r < 5 → s0.memory (0x50 + 5 * d + r) = glyphRow d r) ∧
      (∀ a, a < 4096 → (a < 0x50 ∨ 0x50 + 80 ≤ a) → (a < 0x200 ∨ 0x200 + rom.length ≤ a) →
        s0.memory a = 0) ∧
      s0.PC = 0x200 ∧
      (∀ (keys : Nat → Bool) (rnd w : Nat), w &&& 0xF000 = 0xF000 → w &&& 0x00FF = 0x0029 →
        s0.V ((w &&& 0x0F00) >>> 8) < 16 →
        ∃ s1, execute keys rnd s0 w = some s1 ∧
          s1.I = 0x50 + s0.V ((w &&& 0x0F00) >>> 8) * 5 ∧
          ∀ r, r < 5 → s1.memory (s1.I + r) = glyphRow (s0.V ((w &&& 0x0F00) >>> 8)) r) := by
  obtain ⟨m1, hm1, hrom, hzero⟩ := loadRom_loop rom rom.length (by omega)
  obtain ⟨m2, hm2, hfont, hkeep⟩ := loadFont_loop m1 80 (le_refl 80)
  have hinit : initialState V I stack rom = some
      { memory := m2, display := fun _ => 0, V := V, I := I, PC := 0x200,
        stack := stack, sp := 0, DT := 0, ST := 0 } := by
    simp only [initialState, hm1, hm2]
  have hglyph : ∀ d r, d < 16 → r < 5 → m2 (0x50 + 5 * d + r) = glyphRow d r := by
    intro d r hd hr
    have := hfont (5 * d + r) (by omega)
    rw [← Nat.add_assoc] at this
    exact this
  refine ⟨_, hinit, ?_, hglyph, ?_, rfl, ?_⟩
  · intro i hi
    show m2 (0x200 + i) = _
    rw [hkeep _ (by omega)]
    exact hrom i hi
  · intro a _ hfontout hromout
    show m2 a = 0
    rw [hkeep a hfontout]
    exact hzero a hromout
  · intro keys rnd w hop hlow hv
    have hmod : (0x50 + V ((w &&& 0x0F00) >>> 8) * 5) % 65536 =
        0x50 + V ((w &&& 0x0F00) >>> 8) * 5 := Nat.mod_eq_of_lt (by
      have : V ((w &&& 0x0F00) >>> 8) < 16 := hv
      omega)
    refine ⟨{ memory := m2, display := fun _ => 0, V := V,
              I := 0x50 + V ((w &&& 0x0F00) >>> 8) * 5, PC := 0x200,
              stack := stack, sp := 0, DT := 0, ST := 0 }, ?_, rfl, ?_⟩
    · simp only [execute, executeF, hop, hlow, hmod]
      norm_num
    · intro r hr
      show m2 (0x50 + V ((w &&& 0x0F00) >>> 8) * 5 + r) = glyphRow (V ((w &&& 0x0F00) >>> 8)) r
      rw [Nat.mul_comm]
      exact hglyph _ r hv hr

/-- Witness for C18: the four-byte ROM `60 05 70 03`. -/
theorem initial_memory_image_witness :
    ∃ s0, initialState (fun _ => 0) 0 (fun _ => 0) [0x60, 0x05, 0x70, 0x03] = some s0 ∧
      s0.memory 0x200 = 0x60 ∧ s0.memory 0x203 = 0x03 ∧ s0.memory 0x204 = 0 ∧
      s0.memory (0x50 + 5 * 1 + 4) = 0x70 ∧ s0.memory 0x4F = 0 ∧ s0.PC = 0x200 := by
  obtain ⟨s0, h0, hrom, hglyph, hzero, hpc, -⟩ :=
    initial_memory_image (fun _ => 0) 0 (fun _ => 0) [0x60, 0x05, 0x70, 0x03] (by decide)
  exact ⟨s0, h0, hrom 0 (by decide), hrom 3 (by decide),
    hzero 0x204 (by decide) (by decide) (by decide), hglyph 1 4 (by decide) (by decide),
    hzero 0x4F (by decide) (by decide) (by decide), hpc⟩

/-! ## The pixel plane stays binary -/

theorem drawCol_binary (b x y row col : Nat) (st st' : (Nat → Nat) × (Nat → Nat))
    (h : drawCol b x y row col st = some st')
    (hbin : ∀ i, i < DISPLAY_SIZE → st.1 i ≤ 1) : ∀ i, i < DISPLAY_SIZE → st'.1 i ≤ 1 := by
  unfold drawCol at h
  by_cases hb : b &&& (0x80 >>> col) ≠ 0
  · rw [if_pos hb, setPixel_natCast] at h
    have hlt : (y + row) % 32 * 64 + (x + col) % 64 < DISPLAY_SIZE := by
      unfold DISPLAY_SIZE
      omega
    have hcell := hbin _ hlt
    have hx : st.1 ((y + row) % 32 * 64 + (x + col) % 64) ^^^ 1 ≤ 1 := by
      have h01 : st.1 ((y + row) % 32 * 64 + (x + col) % 64) = 0 ∨
          st.1 ((y + row) % 32 * 64 + (x + col) % 64) = 1 := by omega
      rcases h01 with e | e <;> rw [e] <;> decide
    have hd : st'.1 = store st.1 ((y + row) % 32 * 64 + (x + col) % 64)
        (st.1 ((y + row) % 32 * 64 + (x + col) % 64) ^^^ 1) := by
      dsimp only at h
      split at h <;> cases h <;> rfl
    intro i hi
    rw [hd]
    by_cases hie : i = (y + row) % 32 * 64 + (x + col) % 64
    · rw [hie, store_same]
      exact hx
    · rw [store_other _ _ _ _ hie]
      exact hbin i hi
  · rw [if_neg hb] at h
    cases h
    exact hbin

theorem drawRow_binary (memory : Nat → Nat) (I x y row : Nat)
    (st st' : (Nat → Nat) × (Nat → Nat)) (h : drawRow memory I x y row st = some st')
    (hbin : ∀ i, i < DISPLAY_SIZE → st.1 i ≤ 1) : ∀ i, i < DISPLAY_SIZE → st'.1 i ≤ 1 := by
  unfold drawRow at h
  by_cases hI : I + row < MEM_SIZE
  · rw [if_pos hI] at h
    exact forLoop_preserves (drawCol (memory (I + row)) x y row)
      (fun st => ∀ i, i < DISPLAY_SIZE → st.1 i ≤ 1)
      (fun col a b hab ha => drawCol_binary _ x y row col a b hab ha) 8 st st' hbin h
  · rw [if_neg hI] at h
    cases h

theorem executeD_binary (s : Chip8) (w : Nat) (hbin : s.BinaryDisplay) :
    (executeD s w).elim True Chip8.BinaryDisplay := by
  unfold executeD
  dsimp only
  cases hfl : forLoop (drawRow s.memory s.I (s.V ((w &&& 0x0F00) >>> 8))
      (s.V ((w &&& 0x00F0) >>> 4))) (s.display, store s.V 0xF 0) (w &&& 0x000F) with
  | none => exact elim_none _
  | some st =>
    have := forLoop_preserves (drawRow s.memory s.I (s.V ((w &&& 0x0F00) >>> 8))
      (s.V ((w &&& 0x00F0) >>> 4)))
      (fun st => ∀ i, i < DISPLAY_SIZE → st.1 i ≤ 1)
      (fun row a b hab ha => drawRow_binary _ _ _ _ row a b hab ha) (w &&& 0x000F)
      (s.display, store s.V 0xF 0) st hbin hfl
    exact elim_some _ _ this

theorem execute_clear (keys : Nat → Bool) (rnd : Nat) (s : Chip8) (w : Nat)
    (hop : w &&& 0xF000 = 0x0000) (hlow : w &&& 0x00FF = 0x00E0) :
    execute keys rnd s w =
      some { s with display := fun i => if i < DISPLAY_SIZE then 0 else s.display i } := by
  simp only [execute, execute0, hop, hlow]
  norm_num

theorem execute_draw (keys : Nat → Bool) (rnd : Nat) (s : Chip8) (w : Nat)
    (hop : w &&& 0xF000 = 0xD000) : execute keys rnd s w = executeD s w := by
  simp only [execute, hop]
  norm_num

theorem execute_binary (keys : Nat → Bool) (rnd : Nat) (s : Chip8) (w : Nat)
    (hbin : s.BinaryDisplay) : (execute keys rnd s w).elim True Chip8.BinaryDisplay := by
  by_cases hD : w &&& 0xF000 = 0xD000
  · rw [execute_draw keys rnd s w hD]
    exact executeD_binary s w hbin
  by_cases h0 : w &&& 0xF000 = 0x0000 ∧ w &&& 0x00FF = 0x00E0
  · rw [execute_clear keys rnd s w h0.1 h0.2]
    apply elim_some
    intro i hi
    show (if i < DISPLAY_SIZE then 0 else s.display i) ≤ 1
    rw [if_pos hi]
    exact Nat.zero_le 1
  · refine elim_mono (execute_display keys rnd s w hD h0) ?_
    intro t ht i hi
    rw [ht]
    exact hbin i hi

theorem cycle_binary (keys : Nat → Bool) (rnd : Nat) (s s' : Chip8)
    (hbin : s.BinaryDisplay) (h : cycle keys rnd s = some s') : s'.BinaryDisplay := by
  unfold cycle at h
  cases hf : fetch s with
  | none => rw [hf] at h; cases h
  | some w =>
    rw [hf] at h
    exact of_elim (execute_binary keys rnd { s with PC := (s.PC + 2) % 65536 } w hbin) s' h

theorem runEvents_binary (events : List (Option ((Nat → Bool) × Nat))) :
    ∀ s s' : Chip8, s.BinaryDisplay → runEvents events s = some s' → s'.BinaryDisplay := by
  induction events with
  | nil =>
    intro s s' hbin h
    cases h
    exact hbin
  | cons e rest ih =>
    intro s s' hbin h
    cases e with
    | none =>
      rw [runEvents] at h
      exact ih (timerUpdate s) s' hbin h
    | some e =>
      rw [runEvents] at h
      cases hc : cycle e.1 e.2 s with
      | none => rw [hc] at h; cases h
      | some mid =>
        rw [hc, Option.some_bind] at h
        exact ih mid s' (cycle_binary e.1 e.2 s mid hbin hc) h

theorem initialState_display (V : Nat → Nat) (I : Nat) (stack : Nat → Nat)
    (buffer : List Nat) (s0 : Chip8) (h : initialState V I stack buffer = some s0) :
    s0.display = fun _ => 0 := by
  unfold initialState at h
  split at h
  · cases h
  · split at h
    · cases h
    · cases h
      rfl

/-- C19: if every cell of the plane is 0 or 1 before an instruction, every
cell is 0 or 1 after it; only `00E0` and `Dxyn` write cells, and after `00E0`
every cell is 0; the plane starts all-zero, so the plane of every state reached
from an initial state by CPU cycles and timer updates is binary. -/
theorem plane_stays_binary (keys : Nat → Bool) (rnd : Nat) (s : Chip8) (w : Nat)
    (hbin : s.BinaryDisplay) :
    (∀ s', execute keys rnd s w = some s' → s'.BinaryDisplay) ∧
    (w &&& 0xF000 ≠ 0xD000 → ¬ (w &&& 0xF000 = 0x0000 ∧ w &&& 0x00FF = 0x00E0) →
      ∀ s', execute keys rnd s w = some s' → s'.display = s.display) ∧
    (w &&& 0xF000 = 0x0000 → w &&& 0x00FF = 0x00E0 →
      ∃ s', execute keys rnd s w = some s' ∧ ∀ i, i < DISPLAY_SIZE → s'.display i = 0) ∧
    (∀ (V : Nat → Nat) (I : Nat) (stack : Nat → Nat) (buffer : List Nat)
      (events : List (Option ((Nat → Bool) × Nat))) (s0 s' : Chip8),
      initialState V I stack buffer = some s0 → runEvents events s0 = some s' →
      (∀ i, i < DISPLAY_SIZE → s0.display i = 0) ∧ s'.BinaryDisplay) := by
  refine ⟨of_elim (execute_binary keys rnd s w hbin),
    fun hD h0 => of_elim (execute_display keys rnd s w hD h0), ?_, ?_⟩
  · intro hop hlow
    refine ⟨_, execute_clear keys rnd s w hop hlow, ?_⟩
    intro i hi
    show (if i < DISPLAY_SIZE then 0 else s.display i) = 0
    rw [if_pos hi]
  · intro V I stack buffer events s0 s' hinit hrun
    have hd := initialState_display V I stack buffer s0 hinit
    refine ⟨fun i _ => by rw [hd], ?_⟩
    apply runEvents_binary events s0 s' _ hrun
    intro i _
    rw [hd]
    exact Nat.zero_le 1

/-- Witness for C19: the draw `D001` on `drawDemo`, whose plane is all-zero. -/
theorem plane_stays_binary_witness :
    drawDemo.BinaryDisplay ∧
    ∃ s', execute (fun _ => false) 0 drawDemo 0xD001 = some s' ∧ s'.BinaryDisplay := by
  have hb : drawDemo.BinaryDisplay := fun _ _ => Nat.zero_le 1
  obtain ⟨h, -⟩ := plane_stays_binary (fun _ => false) 0 drawDemo 0xD001 hb
  obtain ⟨d, hd, -⟩ := draw_spec (fun _ => false) 0 drawDemo 0xD001 (by decide) (by decide)
  exact ⟨hb, _, hd, h _ hd⟩

/-! ## Index arithmetic -/

/-- C20: every pixel index that `Dxyn` computes through `setPixel` is below
2048, so `setPixel` never takes its out-of-range branch there; and whenever
`I ≤ 0xFF0`, every memory index of `Dxyn` (`I + row`, `row < n`), `Fx33`
(`I .. I+2`), `Fx55` and `Fx65` (`I + i`, `i ≤ x`) is below 4096, and these
instructions execute without taking an out-of-range branch. -/
theorem indices_in_range (keys : Nat → Bool) (rnd : Nat) (s : Chip8) (w : Nat)
    (hI : s.I ≤ 0xFF0) :
    (∀ (d : Nat → Nat) (vx vy row col : Nat),
      drawIdx vx vy row col < DISPLAY_SIZE ∧
      setPixel d ((vx : Int) + (col : Int)) ((vy : Int) + (row : Int)) =
        some (decide (d (drawIdx vx vy row col) = 1),
          store d (drawIdx vx vy row col) (d (drawIdx vx vy row col) ^^^ 1))) ∧
    (w &&& 0xF000 = 0xD000 →
      (∀ row, row < w &&& 0x000F → s.I + row < MEM_SIZE) ∧
      ∃ s', execute keys rnd s w = some s') ∧
    (w &&& 0xF000 = 0xF000 → w &&& 0x00FF = 0x0033 →
      s.I + 2 < MEM_SIZE ∧ ∃ s', execute keys rnd s w = some s') ∧
    (w &&& 0xF000 = 0xF000 → w &&& 0x00FF = 0x0055 →
      (∀ i, i ≤ (w &&& 0x0F00) >>> 8 → s.I + i < MEM_SIZE) ∧
      ∃ s', execute keys rnd s w = some s') ∧
    (w &&& 0xF000 = 0xF000 → w &&& 0x00FF = 0x0065 →
      (∀ i, i ≤ (w &&& 0x0F00) >>> 8 → s.I + i < MEM_SIZE) ∧
      ∃ s', execute keys rnd s w = some s') := by
  have hn : w &&& 0x000F < 16 := Nat.lt_succ_of_le Nat.and_le_right
  have hx : (w &&& 0x0F00) >>> 8 < 16 := by
    have h1 : w &&& 0x0F00 ≤ 0x0F00 := Nat.and_le_right
    rw [Nat.shiftRight_eq_div_pow]
    omega
  refine ⟨?_, ?_, ?_, ?_, ?_⟩
  · intro d vx vy row col
    refine ⟨?_, setPixel_natCast d vx col vy row⟩
    unfold drawIdx DISPLAY_SIZE
    omega
  · intro hop
    refine ⟨fun row hrow => by unfold MEM_SIZE; omega, ?_⟩
    obtain ⟨d, hd, -⟩ := draw_spec keys rnd s w hop (by omega)
    exact ⟨_, hd⟩
  · intro hop hlow
    have hlt : s.I + 2 < MEM_SIZE := by unfold MEM_SIZE; omega
    refine ⟨hlt, ?_⟩
    simp only [execute, executeF, hop, hlow, hlt]
    norm_num
  · intro hop hlow
    refine ⟨fun i hi => by unfold MEM_SIZE; omega, ?_⟩
    obtain ⟨m, hm, -⟩ := dump_loop s.V s.memory s.I ((w &&& 0x0F00) >>> 8 + 1) (by omega)
    simp only [execute, executeF, hop, hlow, hm]
    norm_num
  · intro hop hlow
    refine ⟨fun i hi => by unfold MEM_SIZE; omega, ?_⟩
    obtain ⟨V', hV, -⟩ := load_loop s.memory s.V s.I ((w &&& 0x0F00) >>> 8 + 1) (by omega)
    simp only [execute, executeF, hop, hlow, hV]
    norm_num

/-- Witness for C20: `FF55` on a state with `I = 0xFF0`, which writes
`memory[0xFF0 .. 0xFFF]`. -/
theorem indices_in_range_witness :
    ({ drawDemo with I := 0xFF0 } : Chip8).I ≤ 0xFF0 ∧
    ∃ s', execute (fun _ => false) 0 { drawDemo with I := 0xFF0 } 0xFF55 = some s' := by
  obtain ⟨-, -, -, h55, -⟩ :=
    indices_in_range (fun _ => false) 0 { drawDemo with I := 0xFF0 } 0xFF55 (by decide)
  exact ⟨by decide, (h55 (by decide) (by decide)).2⟩

end Chip8Emu
